import Mathlib

/-!
Verification development for the tiktok-crawler repository.

The Python source is shallowly embedded: pure helpers become Lean functions,
the stateful crawl engine (`SequentialTikTokCrawler.crawl_single`) becomes an
explicit state-passing function driven by an environment of attempt outcomes,
and the Google-Sheets reconciliation layer (`GoogleSheetsClient`) becomes a
transformation on a sheet state modelled as the list of rows returned by
`get_all_values` (all cells as display strings, the round trip through the
spreadsheet API).  External library calls (`urllib.parse.urlparse`,
`datetime.fromtimestamp`, `datetime.strptime`, `datetime.fromisoformat`) are
modelled directly where the source uses them, as documented on each helper.
-/

namespace TikTok

/-- Python `str.strip()`: drop whitespace from both ends of the string. -/
def pyStrip (s : String) : String :=
  ⟨((s.data.dropWhile Char.isWhitespace).reverse.dropWhile Char.isWhitespace).reverse⟩

/-- Python `str.lower()` (ASCII case folding, which covers every marker string
the source compares against). -/
def pyLower (s : String) : String := ⟨s.data.map Char.toLower⟩

/-- Whether `pat` is a prefix of `text`, on character lists. -/
def charsBeginWith : List Char → List Char → Bool
  | [], _ => true
  | _ :: _, [] => false
  | a :: as, b :: bs => a == b && charsBeginWith as bs

/-- Whether `pat` occurs as a contiguous substring of `text`; Python `in`. -/
def charsContain (pat : List Char) : List Char → Bool
  | [] => pat.isEmpty
  | b :: bs => charsBeginWith pat (b :: bs) || charsContain pat bs

/-- Python `pat in s` for strings. -/
def strContains (s pat : String) : Bool := charsContain pat.data s.data

/-- Python `s.startswith(pre)`. -/
def pyStartsWith (s pre : String) : Bool := charsBeginWith pre.data s.data

/-- Split a character list on a separator character, Python
`str.split(sep)` for a one-character separator (empty segments kept). -/
def splitChar (sep : Char) : List Char → List (List Char)
  | [] => [[]]
  | c :: rest =>
    if c = sep then [] :: splitChar sep rest
    else
      match splitChar sep rest with
      | [] => [[c]]
      | g :: gs => (c :: g) :: gs

/-- String version of `splitChar`. -/
def strSplitChar (sep : Char) (s : String) : List String :=
  (splitChar sep s.data).map (fun l => ⟨l⟩)

/-- Everything after the first occurrence of `pat`, when it occurs. -/
def charsAfterFirst (pat : List Char) : List Char → Option (List Char)
  | [] => if pat.isEmpty then some [] else none
  | c :: rest =>
    if charsBeginWith pat (c :: rest) then some ((c :: rest).drop pat.length)
    else charsAfterFirst pat rest

/-- Gregorian leap-year rule, as used by Python's `datetime`. -/
def isLeapYear (y : Nat) : Bool := y % 4 == 0 && (y % 100 != 0 || y % 400 == 0)

/-- Days in a month of the proleptic Gregorian calendar. -/
def daysInMonth (y m : Nat) : Nat :=
  if m == 2 then (if isLeapYear y then 29 else 28)
  else if m == 4 || m == 6 || m == 9 || m == 11 then 30
  else 31

/-- All characters are ASCII digits (Python `str.isdigit` on the inputs that
occur here). -/
def allDigits (s : String) : Bool := s.data.all Char.isDigit

/-- Numeric value of a digit string. -/
def digitsVal (s : String) : Nat := s.data.foldl (fun n c => n * 10 + (c.toNat - 48)) 0

/-- Model of `datetime.strptime(s, "%Y-%m-%d")` succeeding: `%Y` consumes one
to four digits, `%m` and `%d` one or two digits, the separators are literal
dashes with nothing left over, and the fields must form a real calendar date
with year at least 1.  Returns the parsed (year, month, day). -/
def strptime_Y_m_d (s : String) : Option (Nat × Nat × Nat) :=
  match strSplitChar '-' s with
  | [ys, ms, ds] =>
    if allDigits ys ∧ allDigits ms ∧ allDigits ds ∧
       1 ≤ ys.length ∧ ys.length ≤ 4 ∧ 1 ≤ ms.length ∧ ms.length ≤ 2 ∧
       1 ≤ ds.length ∧ ds.length ≤ 2 then
      let y := digitsVal ys
      let m := digitsVal ms
      let d := digitsVal ds
      if 1 ≤ y ∧ 1 ≤ m ∧ m ≤ 12 ∧ 1 ≤ d ∧ d ≤ daysInMonth y m then some (y, m, d)
      else none
    else none
  | _ => none

/-- `is_valid_publish_date` from `app/playwright_crawler.py` (lines 170-186):
falsy values, placeholder strings after stripping, and anything that fails
`strptime("%Y-%m-%d")` are invalid. -/
def is_valid_publish_date (date_str : Option String) : Bool :=
  match date_str with
  | none => false
  | some s0 =>
    if s0 = "" then false
    else
      let s := pyStrip s0
      if s = "" ∨ s = "None" ∨ s = "null" ∨ s = "N/A" ∨ s = "-" then false
      else (strptime_Y_m_d s).isSome

/-- Civil calendar date from days since 1970-01-01, the standard era-based
algorithm; models the date part of `datetime.fromtimestamp` (the source runs
in a fixed deployment timezone; the model uses UTC days). -/
def civilFromDays (z0 : Int) : Int × Nat × Nat :=
  let z := z0 + 719468
  let era : Int := (if 0 ≤ z then z else z - 146096) / 146097
  let doe : Nat := (z - era * 146097).toNat
  let yoe : Nat := (doe - doe / 1460 + doe / 36524 - doe / 146096) / 365
  let y : Int := (yoe : Int) + era * 400
  let doy : Nat := doe - (365 * yoe + yoe / 4 - yoe / 100)
  let mp : Nat := (5 * doy + 2) / 153
  let d : Nat := doy - (153 * mp + 2) / 5 + 1
  let m : Nat := if mp < 10 then mp + 3 else mp - 9
  (if m ≤ 2 then y + 1 else y, m, d)

/-- Zero-pad to two digits, as `strftime("%m")` and `%d` do. -/
def pad2 (n : Nat) : String := if n < 10 then "0" ++ toString n else toString n

/-- Zero-pad to four digits, as `strftime("%Y")` does. -/
def pad4 (n : Nat) : String :=
  if n < 10 then "000" ++ toString n
  else if n < 100 then "00" ++ toString n
  else if n < 1000 then "0" ++ toString n
  else toString n

/-- `strftime("%Y-%m-%d")`. -/
def formatYMD (y m d : Nat) : String := pad4 y ++ "-" ++ pad2 m ++ "-" ++ pad2 d

/-- `GoogleSheetsClient._convert_timestamp_to_date` (sheets_client.py lines
94-131) for the integer timestamps that reach it: zero is falsy and yields
the empty string, values above 9999999999 are milliseconds, and dates outside
2016-2030 are rejected. -/
def convert_timestamp_to_date (timestamp : Nat) : String :=
  if timestamp = 0 then ""
  else
    let ts := if timestamp > 9999999999 then timestamp / 1000 else timestamp
    let ymd := civilFromDays ((ts : Int) / 86400)
    if ymd.1 < 2016 ∨ 2030 < ymd.1 then "" else formatYMD ymd.1.toNat ymd.2.1 ymd.2.2

/-- The anchored regex `^\d{4}-\d{2}-\d{2}$` from
`_validate_and_format_publish_date`. -/
def matchesYMDShape (s : String) : Bool :=
  match s.data with
  | [c1, c2, c3, c4, c5, c6, c7, c8, c9, c10] =>
    c1.isDigit && c2.isDigit && c3.isDigit && c4.isDigit && (c5 == '-') &&
    c6.isDigit && c7.isDigit && (c8 == '-') && c9.isDigit && c10.isDigit
  | _ => false

/-- Model of the `datetime.fromisoformat(... .replace("Z", "+00:00"))` branch
of `_validate_and_format_publish_date` followed by `strftime("%Y-%m-%d")`:
for the ISO strings this system produces ("date T time"), the result is the
date part when it is a well-formed calendar date; malformed input raises in
the source and falls through, modelled by `none`. -/
def fromisoformat_date (s : String) : Option String :=
  let dpart := (strSplitChar 'T' s).headD ""
  if matchesYMDShape dpart ∧ (strptime_Y_m_d dpart).isSome then some dpart else none

/-- `GoogleSheetsClient._validate_and_format_publish_date` (sheets_client.py
lines 49-92) on the `Optional[str]` values the pipeline feeds it: `None` and
the empty string yield `""`; an exact `YYYY-MM-DD` string is returned as is;
a string containing `T` goes through the `fromisoformat` branch; an all-digit
string is treated as a timestamp; anything else yields `""`. -/
def validate_and_format_publish_date (publish_date : Option String) : String :=
  match publish_date with
  | none => ""
  | some s =>
    if s = "" then ""
    else if matchesYMDShape s then s
    else
      let isoResult := if strContains s "T" then fromisoformat_date s else none
      match isoResult with
      | some d => d
      | none => if allDigits s then convert_timestamp_to_date (digitsVal s) else ""

/-! ## Reconciliation/sync layer (`GoogleSheetsClient`)

A sheet state is the value of `worksheet.get_all_values()`: a list of rows,
each row a list of cells rendered as display strings, row 1 being the header
when present.  Writes are modelled through their round trip: the value the
API would hand back for a cell written with `None` is the empty string, and
an integer renders as its decimal string. -/

/-- One entry of the `records` list handed to `batch_update_records` (the
dicts produced by `TikTokCrawler.process_lark_record`). -/
structure SheetRecord where
  record_id : String
  link : String
  views : Option Int
  baseline : Option Int
  publish_date : Option String
  status : String
deriving DecidableEq

/-- A row of `get_all_values`. -/
abbrev SheetRow := List String

/-- The full `get_all_values` state, row 1 = header when present. -/
abbrev Sheet := List SheetRow

/-- Python truthiness of `row[0]` guarded by `len(row) > 0`. -/
def cellTruthy (row : SheetRow) : Bool :=
  match row with
  | [] => false
  | c :: _ => c ≠ ""

/-- `row[0].strip()` (empty for an empty row). -/
def rowIdOf (row : SheetRow) : String := pyStrip (row.headD "")

/-- The key under which `get_all_records_with_index` files a row: the row
must be non-empty with truthy first cell and a non-empty stripped id. -/
def idKey (row : SheetRow) : Option String :=
  if cellTruthy row then
    let t := rowIdOf row
    if t = "" then none else some t
  else none

/-- The key under which `_remove_duplicates` tracks a row: truthy first cell,
stripped (a blank-after-strip id is still tracked there). -/
def seenKey (row : SheetRow) : Option String :=
  if cellTruthy row then some (rowIdOf row) else none

/-- The stripped ids of the data rows (everything after the header row) that
`_remove_duplicates` would track. -/
def seenIds (vals : Sheet) : List String := (vals.drop 1).filterMap seenKey

/-- The association list built by `get_all_records_with_index` over the data
rows, starting at sheet row `i`; a later binding for the same id overwrites
an earlier one exactly as the Python dict assignment does (lookup below takes
the last binding). -/
def sheetIndexAux : List SheetRow → Nat → List (String × Nat)
  | [], _ => []
  | row :: rest, i =>
    (match idKey row with
     | some t => [(t, i)]
     | none => []) ++ sheetIndexAux rest (i + 1)

/-- `GoogleSheetsClient.get_all_records_with_index` (sheets_client.py lines
133-167): empty or header-only sheets give the empty index; otherwise the
data rows are filed from sheet row 2 on. -/
def get_all_records_with_index (vals : Sheet) : List (String × Nat) :=
  if vals.length < 2 then [] else sheetIndexAux (vals.drop 1) 2

/-- Python dict lookup on an association list in which later bindings
overwrite earlier ones. -/
def idxLookup (assoc : List (String × Nat)) (id : String) : Option Nat :=
  assoc.foldl (fun acc p => if p.1 = id then some p.2 else acc) none

/-- One assignment `records_dict[r["record_id"]] = r`: overwrite the
existing binding or append a fresh one. -/
def dictStep (acc : List (String × SheetRecord)) (r : SheetRecord) :
    List (String × SheetRecord) :=
  if acc.any (fun p => p.1 = r.record_id) then
    acc.map (fun p => if p.1 = r.record_id then (p.1, r) else p)
  else acc ++ [(r.record_id, r)]

/-- The dict comprehension `records_dict = {r["record_id"]: r for r in
records}`: keys in first-occurrence order, each holding the last record with
that id. -/
def pyDictOfRecords (records : List SheetRecord) : List (String × SheetRecord) :=
  records.foldl dictStep []

/-- Lookup in `pyDictOfRecords` output (its keys are pairwise distinct, so
the first binding is the binding). -/
def entryVal (d : List (String × SheetRecord)) (id : String) : Option SheetRecord :=
  (d.find? (fun p => p.1 == id)).map Prod.snd

/-- The partition loop of `batch_update_records` (lines 202-207): walk the
dict entries in order; an id present in the sheet index goes to the update
list with its row index, anything else to the insert list. -/
def partitionRecords (existing : List (String × Nat)) :
    List (String × SheetRecord) → List (Nat × SheetRecord) × List SheetRecord
  | [] => ([], [])
  | p :: rest =>
    match idxLookup existing p.1 with
    | some i =>
      ((i, p.2) :: (partitionRecords existing rest).1, (partitionRecords existing rest).2)
    | none =>
      ((partitionRecords existing rest).1, p.2 :: (partitionRecords existing rest).2)

/-- A sheet cell for a nullable integer: `None` round-trips to the empty
cell, an integer to its decimal string. -/
def cellOfInt (v : Option Int) : String :=
  match v with
  | none => ""
  | some n => toString n

/-- The `row_data` built by `_update_records_with_rate_limit` and
`_insert_records_with_rate_limit`: Record ID, Link, Current Views, 24h
Baseline, validated Published Date, Last Checked timestamp, Status. -/
def payloadRow (r : SheetRecord) (ts : String) : SheetRow :=
  [r.record_id, r.link, cellOfInt r.views, cellOfInt r.baseline,
   validate_and_format_publish_date r.publish_date, ts, r.status]

/-- One `worksheet.update("A{i}:G{i}", row_data)`: replace the first seven
cells of 1-based row `i`, leaving any cells beyond column G in place. -/
def setSheetRow (vals : Sheet) (i : Nat) (newRow : SheetRow) : Sheet :=
  vals.set (i - 1) (newRow ++ (vals.getD (i - 1) []).drop 7)

/-- The update loop of `_update_records_with_rate_limit` (lines 227-313) with
every write succeeding (failures are modelled separately below). -/
def applyUpdates (ts : String) (vals : Sheet) (to_update : List (Nat × SheetRecord)) : Sheet :=
  to_update.foldl (fun v p => setSheetRow v p.1 (payloadRow p.2 ts)) vals

/-- The insert loop of `_insert_records_with_rate_limit` (lines 315-394) with
every `append_row` succeeding. -/
def applyInserts (ts : String) (vals : Sheet) (to_insert : List SheetRecord) : Sheet :=
  to_insert.foldl (fun v r => v ++ [payloadRow r ts]) vals

/-- The scan of `_remove_duplicates` (lines 414-421): over the data rows
starting at sheet row `i`, collect the 1-based indices of every row whose
tracked id was already seen (keeping the first occurrence). -/
def dupScan : List SheetRow → Nat → List String → List Nat
  | [], _, _ => []
  | row :: rest, i, seen =>
    match seenKey row with
    | some rid =>
      if rid ∈ seen then i :: dupScan rest (i + 1) seen
      else dupScan rest (i + 1) (seen ++ [rid])
    | none => dupScan rest (i + 1) seen

/-- One `worksheet.delete_rows(i)`: remove 1-based row `i`. -/
def deleteSheetRow (vals : Sheet) (i : Nat) : Sheet := vals.take (i - 1) ++ vals.drop i

/-- Insert into a descending-sorted list. -/
def insertDesc (x : Nat) : List Nat → List Nat
  | [] => [x]
  | y :: ys => if y ≤ x then x :: y :: ys else y :: insertDesc x ys

/-- `sorted(rows_to_delete, reverse=True)`. -/
def sortDesc (l : List Nat) : List Nat := l.foldr insertDesc []

/-- `GoogleSheetsClient._remove_duplicates` (lines 396-436): fewer than three
rows returns unchanged; otherwise delete the marked duplicate rows from the
bottom upward. -/
def remove_duplicates (vals : Sheet) : Sheet :=
  if vals.length < 3 then vals
  else (sortDesc (dupScan (vals.drop 1) 2 [])).foldl deleteSheetRow vals

/-- Result of a reconciliation run: the new sheet plus the returned
`(updated_count, inserted_count)`. -/
structure ReconcileOut where
  sheet : Sheet
  updated : Nat
  inserted : Nat
deriving DecidableEq

/-- `GoogleSheetsClient.batch_update_records` (lines 169-225) with every
write succeeding: read the index once, dedupe the input by record id (last
record wins), partition into updates and inserts in dict order, apply the
updates then the appends, then run the dedup pass. -/
def batch_update_records (records : List SheetRecord) (ts : String) (vals : Sheet) :
    ReconcileOut :=
  if records.isEmpty then ⟨vals, 0, 0⟩
  else
    let existing := get_all_records_with_index vals
    let dict := pyDictOfRecords records
    let parts := partitionRecords existing dict
    let vals1 := applyUpdates ts vals parts.1
    let vals2 := applyInserts ts vals1 parts.2
    ⟨remove_duplicates vals2, parts.1.length, parts.2.length⟩

/-! ### Write operations as a trace (for the value-input mode and
one-write-per-id claims) -/

/-- A row write issued against the sheet API. -/
inductive WriteOp where
  | update (rowIndex : Nat) (row : SheetRow) (valueInputOption : String)
  | append (row : SheetRow) (valueInputOption : String)
deriving DecidableEq

/-- The row payload an operation carries. -/
def WriteOp.row : WriteOp → SheetRow
  | .update _ r _ => r
  | .append r _ => r

/-- The `value_input_option` an operation passes. -/
def WriteOp.vio : WriteOp → String
  | .update _ _ v => v
  | .append _ v => v

/-- The writes issued by the update loop: each row written with
`value_input_option="USER_ENTERED"` (sheets_client.py lines 270 and 306). -/
def updateOps (ts : String) (to_update : List (Nat × SheetRecord)) : List WriteOp :=
  to_update.map (fun p => WriteOp.update p.1 (payloadRow p.2 ts) "USER_ENTERED")

/-- The writes issued by the insert loop: each `append_row` with
`value_input_option="USER_ENTERED"` (lines 354 and 387). -/
def insertOps (ts : String) (to_insert : List SheetRecord) : List WriteOp :=
  to_insert.map (fun r => WriteOp.append (payloadRow r ts) "USER_ENTERED")

/-- The full trace of row writes a `batch_update_records` run issues, in
order (updates, then appends). -/
def batchWriteOps (records : List SheetRecord) (ts : String) (vals : Sheet) : List WriteOp :=
  if records.isEmpty then []
  else
    let existing := get_all_records_with_index vals
    let dict := pyDictOfRecords records
    let parts := partitionRecords existing dict
    updateOps ts parts.1 ++ insertOps ts parts.2

/-! ### The rate-limit/retry behaviour of the write loops (claim C8) -/

/-- Outcome of one API write attempt. -/
inductive WriteTry where
  | ok
  | err (msg : String)
deriving DecidableEq

/-- Environment assigning an outcome to the k-th write attempt of a run. -/
structure WriteEnv where
  tries : Nat → WriteTry

/-- The `'429' in str(e) or 'quota' in str(e).lower()` test both loops use to
decide whether to back off and retry. -/
def isQuotaError (msg : String) : Bool :=
  strContains msg "429" || strContains (pyLower msg) "quota"

/-- What happened to one record of a write loop. -/
structure ItemReport where
  firstTry : WriteTry
  retried : Bool
  written : Bool
  backoffSeconds : Nat
deriving DecidableEq

/-- Process one item of either write loop against the attempt environment,
returning its report and the number of attempts consumed: a first failure
that is quota-classified sleeps 60 seconds and retries exactly once; any
other failure is skipped without a retry. -/
def writeItemStep (wenv : WriteEnv) (k : Nat) : ItemReport × Nat :=
  match wenv.tries k with
  | .ok => (⟨.ok, false, true, 0⟩, 1)
  | .err m =>
    if isQuotaError m then
      match wenv.tries (k + 1) with
      | .ok => (⟨.err m, true, true, 60⟩, 2)
      | .err _ => (⟨.err m, true, false, 60⟩, 2)
    else (⟨.err m, false, false, 0⟩, 1)

/-- `_update_records_with_rate_limit` with failures: every item is processed
in order regardless of earlier failures, and the successful-write count is
returned alongside the per-item reports. -/
def updateLoopWithErrors (wenv : WriteEnv) :
    List (Nat × SheetRecord) → Nat → List ItemReport × Nat
  | [], _ => ([], 0)
  | _ :: rest, k =>
    let step := writeItemStep wenv k
    let tail := updateLoopWithErrors wenv rest (k + step.2)
    (step.1 :: tail.1, (if step.1.written then 1 else 0) + tail.2)

/-- `_insert_records_with_rate_limit` with failures, same retry structure. -/
def insertLoopWithErrors (wenv : WriteEnv) :
    List SheetRecord → Nat → List ItemReport × Nat
  | [], _ => ([], 0)
  | _ :: rest, k =>
    let step := writeItemStep wenv k
    let tail := insertLoopWithErrors wenv rest (k + step.2)
    (step.1 :: tail.1, (if step.1.written then 1 else 0) + tail.2)

/-! ## Crawl engine (`app/playwright_crawler.py`) -/

/-- `urlparse(url).netloc` for the URLs reaching the validator (they start
with a scheme by then): the text after the first `://` up to the next `/`,
`?` or `#`. -/
def netlocOf (url : String) : String :=
  match charsAfterFirst "://".data url.data with
  | some after => ⟨after.takeWhile (fun c => c ≠ '/' && c ≠ '?' && c ≠ '#')⟩
  | none => ""

/-- The domains accepted by `validate_tiktok_url`. -/
def valid_domains : List String :=
  ["tiktok.com", "www.tiktok.com", "vt.tiktok.com", "m.tiktok.com", "vm.tiktok.com"]

/-- Does `re.search(r"/video/(\d+)", url)` match: some occurrence of
`/video/` followed immediately by a digit. -/
def hasVideoIdAux : List Char → Bool
  | [] => false
  | c :: rest =>
    (charsBeginWith "/video/".data (c :: rest) &&
      match (c :: rest).drop 7 with
      | d :: _ => d.isDigit
      | [] => false) ||
    hasVideoIdAux rest

/-- Digit check after any `/video/` occurrence in the URL. -/
def hasVideoId (url : String) : Bool := hasVideoIdAux url.data

/-- `validate_tiktok_url` (playwright_crawler.py lines 94-140): returns
`(is_valid, cleaned_url_or_error)`. -/
def validate_tiktok_url (url0 : String) : Bool × String :=
  if url0 = "" then (false, "Empty URL")
  else
    let url := pyStrip url0
    if url.length < 10 then (false, "URL too short: " ++ url)
    else if ¬ strContains (pyLower url) "tiktok" then (false, "Not a TikTok URL: " ++ url)
    else
      let url := if pyStartsWith url "http" then url else "https://" ++ url
      let netloc := netlocOf url
      if ¬ valid_domains.any (fun d => strContains netloc d) then
        (false, "Invalid TikTok domain: " ++ netloc)
      else if strContains url "/video/" then
        if hasVideoId url then (true, url)
        else (false, "Cannot extract video ID from: " ++ url)
      else if strContains url "vt.tiktok" || strContains url "vm.tiktok" then (true, url)
      else if strContains url "/@" then (false, "Profile URL, not video: " ++ url)
      else (true, url)

/-- The configuration fields of `CrawlerConfig` that decide control flow in
`crawl_single`. -/
structure CrawlerConfig where
  max_retries : Nat
  restart_browser_every : Nat
  max_consecutive_crashes : Nat
  preserve_existing_publish_date : Bool
  clear_data_on_broken_link : Bool
deriving DecidableEq

/-- The defaults of `CrawlerConfig` (lines 49-69). -/
def defaultConfig : CrawlerConfig :=
  { max_retries := 3
    restart_browser_every := 75
    max_consecutive_crashes := 5
    preserve_existing_publish_date := true
    clear_data_on_broken_link := true }

/-- The dict a successful extraction produces (`extract_video_data` always
fills all five keys before returning non-None). -/
structure ExtractedData where
  views : Int
  likes : Int
  comments : Int
  shares : Int
  publish_date : Option String
deriving DecidableEq

/-- What one navigation/extraction attempt does: a Playwright timeout, some
other raised exception with its message, or a completed page visit carrying
the `extract_video_data` result. -/
inductive AttemptOutcome where
  | timeout
  | raised (msg : String)
  | page (data : Option ExtractedData)

/-- The nondeterministic environment a crawl runs against: `attempts` is
indexed by the `retry_count` of the call making the attempt, `starts` by a
running count of `start_browser` invocations. -/
structure CrawlEnv where
  attempts : Nat → AttemptOutcome
  starts : Nat → Bool

/-- The mutable crawler object state that `crawl_single` reads and writes,
plus two ghost counters (`startCount`, `attemptsMade`) that only record how
many browser starts and page attempts have happened. -/
structure CrawlerState where
  browserRunning : Bool
  videos_since_restart : Nat
  consecutive_crashes : Nat
  total_crashes : Nat
  stats_success : Nat
  stats_failed : Nat
  dates_preserved : Nat
  dates_updated : Nat
  failed_urls : List String
  startCount : Nat
  attemptsMade : Nat
deriving DecidableEq

/-- The result dict `crawl_single` returns.  A success carries no `error`
key, modelled as `none`. -/
structure CrawlResult where
  url : String
  success : Bool
  views : Option Int
  likes : Option Int
  comments : Option Int
  shares : Option Int
  publish_date : Option String
  error : Option String
  is_broken : Bool
deriving DecidableEq

/-- `start_browser` (lines 490-553): tears the old session down, then on a
successful launch resets `videos_since_restart` and `consecutive_crashes`;
on a failed launch the browser stays down and the counters keep their
values. -/
def start_browser (env : CrawlEnv) (s : CrawlerState) : Bool × CrawlerState :=
  let ok := env.starts s.startCount
  let s1 := { s with startCount := s.startCount + 1, browserRunning := false }
  if ok then
    (true, { s1 with browserRunning := true, videos_since_restart := 0,
                     consecutive_crashes := 0 })
  else (false, s1)

/-- `str(e)[:100]`. -/
def truncate100 (s : String) : String := ⟨s.data.take 100⟩

/-- The crash-classification markers (line 759). -/
def crashMarkers : List String := ["closed", "target", "crashed", "disconnected"]

/-- The broken-link markers (line 781). -/
def brokenMarkers : List String := ["not found", "unavailable", "removed", "404", "no data"]

/-- `any(x in error_msg.lower() for x in [...])` for the crash markers. -/
def isCrashError (msg : String) : Bool :=
  crashMarkers.any (fun m => strContains (pyLower msg) m)

/-- `any(x in error_msg.lower() for x in [...])` for the broken markers. -/
def isBrokenError (msg : String) : Bool :=
  brokenMarkers.any (fun m => strContains (pyLower msg) m)

/-- The result for an invalid URL (lines 603-618): broken, everything null,
`url` is the original argument. -/
def invalidUrlResult (url msg : String) : CrawlResult :=
  ⟨url, false, none, none, none, none, none, some msg, true⟩

/-- Preserve-the-ledger-date failure results (crash skip, browser failure,
non-broken terminal failure): not broken, metrics null, date kept when
valid. -/
def preserveDateResult (url : String) (existing : Option String) (msg : String) :
    CrawlResult :=
  ⟨url, false, none, none, none, none,
   (if is_valid_publish_date existing then existing else none), some msg, false⟩

/-- The timeout-exhausted result (lines 742-752): broken, everything null. -/
def timeoutResult (url : String) : CrawlResult :=
  ⟨url, false, none, none, none, none, none, some "Timeout", true⟩

/-- The broken-link terminal result (lines 785-795): broken, everything
null. -/
def brokenLinkResult (url msg : String) : CrawlResult :=
  ⟨url, false, none, none, none, none, none, some msg, true⟩

/-- Unreachable fuel-exhaustion placeholder (the wrapper below always passes
enough fuel for the retry budget). -/
def fuelOutResult (url : String) : CrawlResult :=
  ⟨url, false, none, none, none, none, none, some "fuel exhausted", false⟩

/-- The crash half of the generic exception handler (lines 759-767): a
crash-classified message bumps both crash counters and forces a session
restart; any other message leaves the state alone. -/
def crashRestartStep (env : CrawlEnv) (msg : String) (s : CrawlerState) : CrawlerState :=
  if isCrashError msg then
    (start_browser env { s with consecutive_crashes := s.consecutive_crashes + 1,
                                total_crashes := s.total_crashes + 1 }).2
  else s

/-- The terminal half of the generic exception handler (lines 777-808):
record the failure, then classify broken-vs-preserve from the message. -/
def genericTerminal (cfg : CrawlerConfig) (existing : Option String) (url msg : String)
    (s : CrawlerState) : CrawlerState × CrawlResult :=
  let s2 := { s with stats_failed := s.stats_failed + 1,
                     failed_urls := s.failed_urls ++ [url] }
  if isBrokenError msg ∧ cfg.clear_data_on_broken_link then (s2, brokenLinkResult url msg)
  else (s2, preserveDateResult url existing msg)

/-- `SequentialTikTokCrawler.crawl_single` (lines 589-815), structurally
recursive on a fuel argument that the wrapper ties to the remaining retry
budget.  The branches follow the source in order: URL validation, the
crash-budget skip, the periodic restart, ensuring a live browser, then the
attempt with its four outcomes (success, no-data, timeout, raised
exception), the latter two recursing while `retry_count < max_retries`.
The `raise Exception("No data extracted")` of line 728 is handled inline at
the raise point with the same handler code as any other raised exception. -/
def crawlSingleAux (cfg : CrawlerConfig) (env : CrawlEnv) (existing : Option String) :
    Nat → String → Nat → CrawlerState → CrawlerState × CrawlResult
  | 0, url, _, s => (s, fuelOutResult url)
  | fuel + 1, url0, retry_count, s =>
    match validate_tiktok_url url0 with
    | (false, msg) =>
      ({ s with stats_failed := s.stats_failed + 1 }, invalidUrlResult url0 msg)
    | (true, url) =>
      if cfg.max_consecutive_crashes ≤ s.consecutive_crashes then
        ({ s with stats_failed := s.stats_failed + 1,
                  failed_urls := s.failed_urls ++ [url],
                  consecutive_crashes := 0 },
         preserveDateResult url existing "Too many consecutive crashes")
      else
        let s := if cfg.restart_browser_every ≤ s.videos_since_restart then
                   (start_browser env s).2
                 else s
        let ensured : Bool × CrawlerState :=
          if s.browserRunning then (true, s) else start_browser env s
        if ensured.1 = false then
          (ensured.2, preserveDateResult url existing "Browser failed to start")
        else
          let s := { ensured.2 with attemptsMade := ensured.2.attemptsMade + 1 }
          match env.attempts retry_count with
          | .timeout =>
            if retry_count < cfg.max_retries then
              crawlSingleAux cfg env existing fuel url (retry_count + 1)
                (start_browser env s).2
            else
              ({ s with stats_failed := s.stats_failed + 1,
                        failed_urls := s.failed_urls ++ [url] },
               timeoutResult url)
          | .raised m =>
            let msg := truncate100 m
            let s1 := crashRestartStep env msg s
            if retry_count < cfg.max_retries then
              crawlSingleAux cfg env existing fuel url (retry_count + 1) s1
            else genericTerminal cfg existing url msg s1
          | .page data =>
            let s := { s with videos_since_restart := s.videos_since_restart + 1,
                              consecutive_crashes := 0 }
            match data with
            | some d =>
              if 0 < d.views then
                let s := { s with stats_success := s.stats_success + 1 }
                let pd : Option String × CrawlerState :=
                  if cfg.preserve_existing_publish_date then
                    if is_valid_publish_date existing then
                      (existing, { s with dates_preserved := s.dates_preserved + 1 })
                    else if is_valid_publish_date d.publish_date then
                      (d.publish_date, { s with dates_updated := s.dates_updated + 1 })
                    else (none, s)
                  else (d.publish_date, s)
                (pd.2,
                 ⟨url, true, some d.views, some d.likes, some d.comments, some d.shares,
                  pd.1, none, false⟩)
              else
                let s1 := crashRestartStep env "No data extracted" s
                if retry_count < cfg.max_retries then
                  crawlSingleAux cfg env existing fuel url (retry_count + 1) s1
                else genericTerminal cfg existing url "No data extracted" s1
            | none =>
              let s1 := crashRestartStep env "No data extracted" s
              if retry_count < cfg.max_retries then
                crawlSingleAux cfg env existing fuel url (retry_count + 1) s1
              else genericTerminal cfg existing url "No data extracted" s1

/-- `crawl_single` proper: the fuel is the number of attempts the retry
budget still allows from `retry_count` (at least one). -/
def crawl_single (cfg : CrawlerConfig) (env : CrawlEnv) (url : String)
    (existing : Option String) (retry_count : Nat) (s : CrawlerState) :
    CrawlerState × CrawlResult :=
  crawlSingleAux cfg env existing (cfg.max_retries - retry_count + 1) url retry_count s

/-! ## `TikTokCrawler.process_lark_record` (app/crawler.py lines 187-289)

The Lark field decoding (`extract_lark_field_value`,
`extract_publish_date_from_lark`) is abstracted as the already-extracted
inputs `link_value`, `views_lark`, `baseline_value` and
`publish_date_from_lark`; the record construction itself is translated
below (the debug-only `source_data` payload is omitted). -/

/-- The record `process_lark_record` builds for the sink. -/
structure ProcessedRecord where
  record_id : String
  link : String
  views : Option Int
  baseline : Option Int
  publish_date : Option String
  status : String
  is_broken : Bool
deriving DecidableEq

/-- Python `x or d` on an optional integer (`None` and `0` are falsy). -/
def pyOrInt (v : Option Int) (d : Int) : Int :=
  match v with
  | none => d
  | some n => if n = 0 then d else n

/-- Python `a or b` on optional strings (`None` and `""` are falsy). -/
def pyOrStr (a b : Option String) : Option String :=
  match a with
  | none => b
  | some s => if s = "" then b else some s

/-- The record-construction logic of `process_lark_record` given the
extracted ledger fields.  A missing or empty link skips the record; a broken
crawl result blanks views, baseline and date and forces status "broken"; a
success with positive views uses the crawled data; anything else falls back
to the ledger values with status "partial".  A success flag with a `None`
views value would raise a `TypeError` in the source (`None > 0`), caught by
the enclosing handler, so the record is skipped. -/
def process_lark_record_core (record_id : String) (link_value : Option String)
    (views_lark baseline_value : Option Int) (publish_date_from_lark : Option String)
    (tiktok_result : Option CrawlResult) : Option ProcessedRecord :=
  match link_value with
  | none => none
  | some link =>
    if link = "" then none
    else
      let baseline : Int := pyOrInt baseline_value (pyOrInt views_lark 0)
      let partialRecord : ProcessedRecord :=
        ⟨record_id, link, some (pyOrInt views_lark 0), some baseline,
         publish_date_from_lark, "partial", false⟩
      match tiktok_result with
      | some tr =>
        if tr.is_broken then
          some ⟨record_id, link, none, none, none, "broken", true⟩
        else if tr.success then
          match tr.views with
          | some v =>
            if 0 < v then
              some ⟨record_id, link, some v, some baseline,
                    pyOrStr tr.publish_date publish_date_from_lark, "success", false⟩
            else some partialRecord
          | none => none
        else some partialRecord
      | none => some partialRecord

/-! ## Lemmas about the record dict -/

theorem find?_append_pairs {α : Type} (a b : List α) (p : α → Bool) :
    (a ++ b).find? p =
      match a.find? p with
      | some x => some x
      | none => b.find? p := by
  induction a with
  | nil => rfl
  | cons q rest ih =>
    by_cases h : p q
    · simp [List.find?_cons_of_pos _ h]
    · rw [List.cons_append, List.find?_cons_of_neg _ h, List.find?_cons_of_neg _ h, ih]

theorem find?_overwrite (acc : List (String × SheetRecord)) (r : SheetRecord) (id : String) :
    ((acc.map (fun p => if p.1 = r.record_id then (p.1, r) else p)).find?
        (fun p => p.1 == id)) =
      (acc.find? (fun p => p.1 == id)).map
        (fun p => if p.1 = r.record_id then (p.1, r) else p) := by
  induction acc with
  | nil => rfl
  | cons q rest ih =>
    have hfst : ((if q.1 = r.record_id then (q.1, r) else q) : String × SheetRecord).1 = q.1 := by
      split <;> rfl
    by_cases h : q.1 = id
    · have hq : (q.1 == id) = true := by simp [h]
      simp only [List.map_cons, List.find?_cons, hfst, hq]
      rfl
    · have hq : (q.1 == id) = false := by simp [h]
      simp only [List.map_cons, List.find?_cons, hfst, hq]
      exact ih

theorem entryVal_dictStep (acc : List (String × SheetRecord)) (r : SheetRecord) (id : String) :
    entryVal (dictStep acc r) id = if id = r.record_id then some r else entryVal acc id := by
  unfold dictStep entryVal
  split
  · next hany =>
    rw [find?_overwrite]
    cases hx : acc.find? (fun p => p.1 == id) with
    | none =>
      by_cases h : id = r.record_id
      · exfalso
        rcases List.any_eq_true.1 hany with ⟨q, hq, hq1⟩
        have hq1' : q.1 = r.record_id := by simpa using hq1
        exact List.find?_eq_none.1 hx q hq (by simp [hq1', h])
      · simp [hx, h]
    | some x =>
      have hx1 : x.1 = id := by simpa using List.find?_some hx
      by_cases h : id = r.record_id
      · have hx2 : x.1 = r.record_id := by rw [hx1, h]
        simp [hx, h, hx2]
      · have hx2 : ¬ x.1 = r.record_id := by rw [hx1]; exact h
        simp [hx, h, hx2]
  · next hany =>
    rw [find?_append_pairs]
    cases hx : acc.find? (fun p => p.1 == id) with
    | none =>
      by_cases h : id = r.record_id
      · simp [hx, h, List.find?]
      · have hne : (r.record_id == id) = false :=
          beq_eq_false_iff_ne.2 (fun he => h he.symm)
        simp [hx, h, List.find?, hne]
    | some x =>
      by_cases h : id = r.record_id
      · exfalso
        have hmem := List.mem_of_find?_eq_some hx
        have hx1 : x.1 = id := by simpa using List.find?_some hx
        exact hany (List.any_eq_true.2 ⟨x, hmem, by simp [hx1, ← h]⟩)
      · simp [hx, h]

theorem dictStep_keys_nodup (acc : List (String × SheetRecord)) (r : SheetRecord)
    (h : (acc.map Prod.fst).Nodup) : ((dictStep acc r).map Prod.fst).Nodup := by
  unfold dictStep
  split
  · next hany =>
    have : (acc.map (fun p => if p.1 = r.record_id then (p.1, r) else p)).map Prod.fst =
        acc.map Prod.fst := by
      rw [List.map_map]
      apply List.map_congr_left
      intro p _
      show (if p.1 = r.record_id then ((p.1, r) : String × SheetRecord) else p).1 = p.1
      split <;> rfl
    rw [this]; exact h
  · next hany =>
    have hmem : r.record_id ∉ acc.map Prod.fst := by
      intro hmem
      rcases List.mem_map.1 hmem with ⟨p, hp, hpe⟩
      exact hany (List.any_eq_true.2 ⟨p, hp, by simp [hpe]⟩)
    simp only [List.map_append, List.map_cons, List.map_nil]
    simp [List.nodup_append, h, hmem]

theorem dictStep_consistent (acc : List (String × SheetRecord)) (r : SheetRecord)
    (h : ∀ p ∈ acc, p.2.record_id = p.1) : ∀ p ∈ dictStep acc r, p.2.record_id = p.1 := by
  unfold dictStep
  split
  · intro p hp
    rcases List.mem_map.1 hp with ⟨q, hq, hqe⟩
    by_cases hcond : q.1 = r.record_id
    · rw [← hqe]; simp [hcond]
    · rw [← hqe]; simp [hcond]; exact h q hq
  · intro p hp
    rcases List.mem_append.1 hp with hp | hp
    · exact h p hp
    · rcases List.mem_singleton.1 hp with rfl
      rfl

theorem pyDict_fold (records : List SheetRecord) :
    ∀ (acc : List (String × SheetRecord)) (pre : List SheetRecord),
    (acc.map Prod.fst).Nodup →
    (∀ p ∈ acc, p.2.record_id = p.1) →
    (∀ id, entryVal acc id = (pre.filter (fun x => x.record_id = id)).getLast?) →
    ((records.foldl dictStep acc).map Prod.fst).Nodup ∧
    (∀ p ∈ records.foldl dictStep acc, p.2.record_id = p.1) ∧
    (∀ id, entryVal (records.foldl dictStep acc) id =
      ((pre ++ records).filter (fun x => x.record_id = id)).getLast?) := by
  induction records with
  | nil =>
    intro acc pre h1 h2 h3
    refine ⟨h1, h2, ?_⟩
    simpa using h3
  | cons r rest ih =>
    intro acc pre h1 h2 h3
    have step := ih (dictStep acc r) (pre ++ [r]) (dictStep_keys_nodup acc r h1)
      (dictStep_consistent acc r h2) ?_
    · refine ⟨step.1, step.2.1, ?_⟩
      intro id
      have := step.2.2 id
      simpa [List.append_assoc] using this
    · intro id
      rw [entryVal_dictStep, List.filter_append, h3]
      by_cases h : r.record_id = id
      · simp [h, List.getLast?_concat]
      · have : ¬ id = r.record_id := fun he => h he.symm
        simp [h, this]

theorem pyDict_keys_nodup (records : List SheetRecord) :
    ((pyDictOfRecords records).map Prod.fst).Nodup :=
  (pyDict_fold records [] [] (by simp) (by simp) (by simp [entryVal])).1

theorem pyDict_consistent (records : List SheetRecord) :
    ∀ p ∈ pyDictOfRecords records, p.2.record_id = p.1 :=
  (pyDict_fold records [] [] (by simp) (by simp) (by simp [entryVal])).2.1

theorem pyDict_entryVal (records : List SheetRecord) (id : String) :
    entryVal (pyDictOfRecords records) id =
      (records.filter (fun x => x.record_id = id)).getLast? := by
  have := (pyDict_fold records [] [] (by simp) (by simp) (by simp [entryVal])).2.2 id
  simpa using this

theorem entryVal_of_mem (d : List (String × SheetRecord))
    (hnodup : (d.map Prod.fst).Nodup) (k : String) (r : SheetRecord)
    (hm : (k, r) ∈ d) : entryVal d k = some r := by
  induction d with
  | nil => cases hm
  | cons q rest ih =>
    have hsplit : q.1 ∉ rest.map Prod.fst ∧ (rest.map Prod.fst).Nodup := by
      have h0 := hnodup
      rw [List.map_cons, List.nodup_cons] at h0
      exact h0
    rcases List.mem_cons.1 hm with rfl | hm'
    · simp [entryVal, List.find?_cons_of_pos]
    · have hk : k ∈ rest.map Prod.fst := List.mem_map.2 ⟨(k, r), hm', rfl⟩
      have hne : ¬ (q.1 = k) := by
        intro he
        rw [he] at hsplit
        exact hsplit.1 hk
      unfold entryVal
      rw [List.find?_cons_of_neg _ (by simp [hne])]
      exact ih hsplit.2 hm'

/-! ## Lemmas about the update/insert partition and the write trace -/

theorem partition_ops_count (existing : List (String × Nat)) (ts id : String) :
    ∀ dict : List (String × SheetRecord), (∀ p ∈ dict, p.2.record_id = p.1) →
    ((updateOps ts (partitionRecords existing dict).1 ++
        insertOps ts (partitionRecords existing dict).2).countP
      (fun op => (WriteOp.row op).headD "" == id)) =
      dict.countP (fun p => p.1 == id) := by
  intro dict
  induction dict with
  | nil => intro _; rfl
  | cons p rest ih =>
    intro hc
    have hp : p.2.record_id = p.1 := hc p (List.mem_cons_self _ _)
    have ih' := ih (fun q hq => hc q (List.mem_cons_of_mem _ hq))
    cases hl : idxLookup existing p.1 with
    | some i =>
      simp only [partitionRecords, hl]
      rw [show updateOps ts ((i, p.2) :: (partitionRecords existing rest).1) =
            WriteOp.update i (payloadRow p.2 ts) "USER_ENTERED" ::
              updateOps ts (partitionRecords existing rest).1 from rfl]
      rw [List.cons_append, List.countP_cons, List.countP_cons, ih']
      have hpred :
          ((WriteOp.row (WriteOp.update i (payloadRow p.2 ts) "USER_ENTERED")).headD ""
            == id) = (p.1 == id) := by
        show (p.2.record_id == id) = (p.1 == id)
        rw [hp]
      rw [hpred]
    | none =>
      simp only [partitionRecords, hl]
      rw [show insertOps ts (p.2 :: (partitionRecords existing rest).2) =
            WriteOp.append (payloadRow p.2 ts) "USER_ENTERED" ::
              insertOps ts (partitionRecords existing rest).2 from rfl]
      rw [List.countP_append, List.countP_cons, List.countP_cons]
      rw [List.countP_append] at ih'
      have hpred :
          ((WriteOp.row (WriteOp.append (payloadRow p.2 ts) "USER_ENTERED")).headD ""
            == id) = (p.1 == id) := by
        show (p.2.record_id == id) = (p.1 == id)
        rw [hp]
      rw [hpred]
      omega

theorem partition_mem_update (existing : List (String × Nat)) :
    ∀ (dict : List (String × SheetRecord)) (q : Nat × SheetRecord),
      q ∈ (partitionRecords existing dict).1 → ∃ k, (k, q.2) ∈ dict := by
  intro dict
  induction dict with
  | nil => intro q hq; cases hq
  | cons p rest ih =>
    intro q hq
    cases hl : idxLookup existing p.1 with
    | some i =>
      simp only [partitionRecords, hl] at hq
      rcases List.mem_cons.1 hq with rfl | hq'
      · exact ⟨p.1, List.mem_cons_self _ _⟩
      · rcases ih q hq' with ⟨k, hk⟩
        exact ⟨k, List.mem_cons_of_mem _ hk⟩
    | none =>
      simp only [partitionRecords, hl] at hq
      rcases ih q hq with ⟨k, hk⟩
      exact ⟨k, List.mem_cons_of_mem _ hk⟩

theorem partition_mem_insert (existing : List (String × Nat)) :
    ∀ (dict : List (String × SheetRecord)) (r : SheetRecord),
      r ∈ (partitionRecords existing dict).2 → ∃ k, (k, r) ∈ dict := by
  intro dict
  induction dict with
  | nil => intro r hr; cases hr
  | cons p rest ih =>
    intro r hr
    cases hl : idxLookup existing p.1 with
    | some i =>
      simp only [partitionRecords, hl] at hr
      rcases ih r hr with ⟨k, hk⟩
      exact ⟨k, List.mem_cons_of_mem _ hk⟩
    | none =>
      simp only [partitionRecords, hl] at hr
      rcases List.mem_cons.1 hr with rfl | hr'
      · exact ⟨p.1, List.mem_cons_self _ _⟩
      · rcases ih r hr' with ⟨k, hk⟩
        exact ⟨k, List.mem_cons_of_mem _ hk⟩

/-- C9: every row write issued by the reconciliation layer, updates of
existing rows and appends of new rows alike, passes the explicit
`value_input_option="USER_ENTERED"` value-input mode (the mode the spec
describes as handing the store the raw typed value and letting it infer
types) to the sink. -/
theorem every_write_user_entered (records : List SheetRecord) (ts : String) (vals : Sheet)
    (op : WriteOp) (hop : op ∈ batchWriteOps records ts vals) :
    op.vio = "USER_ENTERED" := by
  unfold batchWriteOps at hop
  split at hop
  · cases hop
  · rcases List.mem_append.1 hop with h | h
    · rcases List.mem_map.1 h with ⟨p, _, rfl⟩
      rfl
    · rcases List.mem_map.1 h with ⟨r, _, rfl⟩
      rfl

/-- Concrete record used to witness claim C9. -/
def wrec9 : SheetRecord := ⟨"w9", "https://t", some 3, some 2, some "2024-05-01", "success"⟩

/-- Witness for C9: a concrete append issued by a concrete run carries the
USER_ENTERED mode. -/
theorem every_write_user_entered_witness :
    (WriteOp.append (payloadRow wrec9 "TS") "USER_ENTERED").vio = "USER_ENTERED" :=
  every_write_user_entered [wrec9] "TS" []
    (WriteOp.append (payloadRow wrec9 "TS") "USER_ENTERED") (by decide)

/-- C10: in a `batch_update_records` run, at most one row write is issued
per record id, and the payload written for an id is built from the last
record carrying that id in the input list (earlier duplicates are dropped by
the dict built before the partition). -/
theorem one_write_per_record_id (records : List SheetRecord) (ts : String) (vals : Sheet)
    (id : String) :
    ((batchWriteOps records ts vals).countP
      (fun op => (WriteOp.row op).headD "" == id)) ≤ 1 ∧
    (∀ op ∈ batchWriteOps records ts vals, (WriteOp.row op).headD "" = id →
      ∃ r, (records.filter (fun x => x.record_id = id)).getLast? = some r ∧
        WriteOp.row op = payloadRow r ts) := by
  constructor
  · unfold batchWriteOps
    split
    · simp
    · rw [partition_ops_count _ _ _ _ (pyDict_consistent records)]
      have h1 : (pyDictOfRecords records).countP (fun p => p.1 == id) =
          ((pyDictOfRecords records).map Prod.fst).countP (fun k => k == id) := by
        rw [List.countP_map]
        rfl
      rw [h1]
      exact List.nodup_iff_count_le_one.1 (pyDict_keys_nodup records) id
  · intro op hop hid
    unfold batchWriteOps at hop
    split at hop
    · cases hop
    · rcases List.mem_append.1 hop with hmem | hmem
      · rcases List.mem_map.1 hmem with ⟨q, hq, rfl⟩
        rcases partition_mem_update _ _ _ hq with ⟨k, hk⟩
        have hk2 : q.2.record_id = k := pyDict_consistent records _ hk
        have hid2 : q.2.record_id = id := hid
        have hkid : k = id := by rw [← hk2, hid2]
        refine ⟨q.2, ?_, rfl⟩
        rw [← pyDict_entryVal, ← hkid]
        exact entryVal_of_mem _ (pyDict_keys_nodup records) k q.2 hk
      · rcases List.mem_map.1 hmem with ⟨r, hr, rfl⟩
        rcases partition_mem_insert _ _ _ hr with ⟨k, hk⟩
        have hk2 : r.record_id = k := pyDict_consistent records _ hk
        have hid2 : r.record_id = id := hid
        have hkid : k = id := by rw [← hk2, hid2]
        refine ⟨r, ?_, rfl⟩
        rw [← pyDict_entryVal, ← hkid]
        exact entryVal_of_mem _ (pyDict_keys_nodup records) k r hk

/-- Concrete records used to witness claim C10 (two inputs share id "w10";
the single issued write carries the later one's payload). -/
def wrec10a : SheetRecord := ⟨"w10", "https://a", some 1, some 1, none, "success"⟩

/-- Second record with the same id, later in the input list. -/
def wrec10b : SheetRecord := ⟨"w10", "https://b", some 2, some 2, none, "success"⟩

/-- Witness for C10 at a concrete duplicated input list. -/
theorem one_write_per_record_id_witness :
    ((batchWriteOps [wrec10a, wrec10b] "TS" []).countP
      (fun op => (WriteOp.row op).headD "" == "w10")) ≤ 1 ∧
    (∃ r, ([wrec10a, wrec10b].filter (fun x => x.record_id = "w10")).getLast? = some r ∧
      WriteOp.row (WriteOp.append (payloadRow wrec10b "TS") "USER_ENTERED") =
        payloadRow r "TS") :=
  ⟨(one_write_per_record_id [wrec10a, wrec10b] "TS" [] "w10").1,
   (one_write_per_record_id [wrec10a, wrec10b] "TS" [] "w10").2
     (WriteOp.append (payloadRow wrec10b "TS") "USER_ENTERED") (by decide) (by decide)⟩

/-! ## Positional lemmas about sheet rows -/

theorem getD_set_self {α : Type} (l : List α) (n : Nat) (a d : α) (h : n < l.length) :
    (l.set n a).getD n d = a := by
  induction l generalizing n with
  | nil => cases h
  | cons x xs ih =>
    cases n with
    | zero => rfl
    | succ m => exact ih m (by simpa using h)

theorem getD_set_ne {α : Type} (l : List α) (n m : Nat) (a d : α) (h : n ≠ m) :
    (l.set n a).getD m d = l.getD m d := by
  induction l generalizing n m with
  | nil => rfl
  | cons x xs ih =>
    cases n with
    | zero =>
      cases m with
      | zero => exact absurd rfl h
      | succ k => rfl
    | succ j =>
      cases m with
      | zero => rfl
      | succ k => exact ih j k (fun he => h (by rw [he]))

/-! ## Claim C2: publish-date handling inside the reconciliation layer -/

/-- Header row used in concrete sheet states. -/
def hdr7 : SheetRow :=
  ["Record ID", "Link", "Current Views", "24h Baseline", "Published Date",
   "Last Check", "Status"]

/-- A sheet whose single data row holds a validly formatted stored date. -/
def cexSheetC2 : Sheet :=
  [hdr7, ["r1", "https://l", "1", "1", "2024-01-01", "t0", "success"]]

/-- A successful crawl record for the same id carrying a different valid
extracted date. -/
def cexRecC2 : SheetRecord :=
  ⟨"r1", "https://l", some 5, some 5, some "2024-02-02", "success"⟩

/-- C2 counterexample: the sink row already holds the validly formatted date
2024-01-01, and reconciling a successful record for the same id whose
extracted date is 2024-02-02 rewrites the stored cell to 2024-02-02 — the
claimed existing-valid-cell-wins rule is not applied by the reconciliation
layer. -/
theorem publish_date_overwrite_counterexample :
    is_valid_publish_date (some "2024-01-01") = true ∧
    (((batch_update_records [cexRecC2] "TS" cexSheetC2).sheet.getD 1 []).getD 4 "")
      = "2024-02-02" ∧
    ¬ ((((batch_update_records [cexRecC2] "TS" cexSheetC2).sheet.getD 1 []).getD 4 "")
      = "2024-01-01") := by decide

/-- C2 amended: `get_all_records_with_index` carries only row positions (no
dates), and the update write for a record always stores the validated
incoming publish date in the Published Date cell, whatever the cell held
before — preservation of an existing date happens upstream in the crawl
engine, not in the reconciliation layer. -/
theorem update_payload_uses_incoming_date (rec : SheetRecord) (ts : String) (vals : Sheet)
    (i : Nat) (h1 : 1 ≤ i) (h2 : i ≤ vals.length) :
    (payloadRow rec ts).getD 4 "" = validate_and_format_publish_date rec.publish_date ∧
    ((applyUpdates ts vals [(i, rec)]).getD (i - 1) []).getD 4 "" =
      validate_and_format_publish_date rec.publish_date := by
  refine ⟨rfl, ?_⟩
  unfold applyUpdates setSheetRow
  simp only [List.foldl]
  have hlt : i - 1 < vals.length := by omega
  rw [getD_set_self _ _ _ _ hlt]
  rfl

/-- Witness for the amended C2 at a concrete sheet and record. -/
theorem update_payload_uses_incoming_date_witness :
    (payloadRow cexRecC2 "TS").getD 4 "" =
      validate_and_format_publish_date cexRecC2.publish_date ∧
    ((applyUpdates "TS" cexSheetC2 [(2, cexRecC2)]).getD 1 []).getD 4 "" =
      validate_and_format_publish_date cexRecC2.publish_date :=
  update_payload_uses_incoming_date cexRecC2 "TS" cexSheetC2 2 (by decide) (by decide)

/-! ## Claim C3: idempotence of reconciliation -/

/-- A sheet that already contains two rows for the same record id. -/
def cexSheetC3 : Sheet :=
  [hdr7,
   ["id1", "old", "1", "1", "", "t0", "success"],
   ["id1", "old2", "2", "2", "", "t0", "success"]]

/-- The record reconciled twice in the C3 counterexample. -/
def cexRecC3 : SheetRecord := ⟨"id1", "L", some 9, some 9, none, "success"⟩

/-- C3 counterexample: starting from a sink that holds duplicate rows for
one id, running `batch_update_records` twice with the same input and the
same write timestamp does not reach a fixed point after the first run — the
first run updates the last duplicate row (the one the index reads) and then
the dedup pass deletes exactly that row, so the second run changes the sheet
again. -/
theorem reconcile_not_idempotent_counterexample :
    ¬ ((batch_update_records [cexRecC3] "TS"
          (batch_update_records [cexRecC3] "TS" cexSheetC3).sheet).sheet
        = (batch_update_records [cexRecC3] "TS" cexSheetC3).sheet) := by decide

/-! ## The deduplication pass as keep-first filtering -/

/-- Direct keep-first-occurrence filtering of data rows: a row whose tracked
id was already seen is dropped, everything else is kept. -/
def keepFirstAux : List SheetRow → List String → List SheetRow
  | [], _ => []
  | row :: rest, seen =>
    match seenKey row with
    | some rid =>
      if rid ∈ seen then keepFirstAux rest seen
      else row :: keepFirstAux rest (seen ++ [rid])
    | none => row :: keepFirstAux rest seen

/-- Keep-first deduplication of a sheet, with the same fewer-than-three-rows
early return as `_remove_duplicates`. -/
def keepFirst (vals : Sheet) : Sheet :=
  if vals.length < 3 then vals else vals.take 1 ++ keepFirstAux (vals.drop 1) []

theorem dupScan_ge : ∀ (xs : List SheetRow) (i : Nat) (seen : List String),
    ∀ j ∈ dupScan xs i seen, i ≤ j := by
  intro xs
  induction xs with
  | nil => intro i seen j hj; cases hj
  | cons row rest ih =>
    intro i seen j hj
    unfold dupScan at hj
    rcases hrow : seenKey row with _ | rid
    · rw [hrow] at hj
      dsimp only at hj
      exact Nat.le_of_succ_le (ih (i + 1) seen j hj)
    · rw [hrow] at hj
      dsimp only at hj
      by_cases hmem : rid ∈ seen
      · rw [if_pos hmem] at hj
        rcases List.mem_cons.1 hj with rfl | hj'
        · exact Nat.le_refl _
        · exact Nat.le_of_succ_le (ih (i + 1) seen j hj')
      · rw [if_neg hmem] at hj
        exact Nat.le_of_succ_le (ih (i + 1) (seen ++ [rid]) j hj)

theorem dupScan_sorted : ∀ (xs : List SheetRow) (i : Nat) (seen : List String),
    List.Pairwise (fun a b => a < b) (dupScan xs i seen) := by
  intro xs
  induction xs with
  | nil => intro i seen; exact List.Pairwise.nil
  | cons row rest ih =>
    intro i seen
    unfold dupScan
    rcases hrow : seenKey row with _ | rid
    · dsimp only
      exact ih (i + 1) seen
    · dsimp only
      by_cases hmem : rid ∈ seen
      · rw [if_pos hmem]
        refine List.Pairwise.cons ?_ (ih (i + 1) seen)
        intro j hj
        exact Nat.lt_of_succ_le (dupScan_ge rest (i + 1) seen j hj)
      · rw [if_neg hmem]
        exact ih (i + 1) (seen ++ [rid])

theorem insertDesc_bottom (x : Nat) : ∀ (m : List Nat), (∀ y ∈ m, x < y) →
    insertDesc x m = m ++ [x] := by
  intro m
  induction m with
  | nil => intro _; rfl
  | cons y ys ih =>
    intro h
    have hxy : x < y := h y (List.mem_cons_self _ _)
    unfold insertDesc
    rw [if_neg (by omega)]
    rw [ih (fun z hz => h z (List.mem_cons_of_mem _ hz))]
    rfl

theorem sortDesc_of_sorted : ∀ (l : List Nat), List.Pairwise (fun a b => a < b) l →
    sortDesc l = l.reverse := by
  intro l
  induction l with
  | nil => intro _; rfl
  | cons x xs ih =>
    intro h
    have hx : ∀ y ∈ xs, x < y := (List.pairwise_cons.1 h).1
    show insertDesc x (sortDesc xs) = (x :: xs).reverse
    rw [ih (List.pairwise_cons.1 h).2]
    rw [insertDesc_bottom x xs.reverse (fun y hy => hx y (List.mem_reverse.1 hy))]
    rw [List.reverse_cons]

theorem deleteRow_at_prefix (pre : List SheetRow) (row : SheetRow) (tail : List SheetRow) :
    deleteSheetRow (pre ++ row :: tail) (pre.length + 1) = pre ++ tail := by
  unfold deleteSheetRow
  have h1 : pre.length + 1 - 1 = pre.length := by omega
  rw [h1]
  congr 1
  · exact List.take_left pre (row :: tail)
  · rw [show pre.length + 1 = (pre ++ [row]).length by simp]
    rw [show pre ++ row :: tail = (pre ++ [row]) ++ tail by simp]
    exact List.drop_left (pre ++ [row]) tail

theorem scan_delete_eq_keepFirst :
    ∀ (xs : List SheetRow) (pre : List SheetRow) (seen : List String),
    (sortDesc (dupScan xs (pre.length + 1) seen)).foldl deleteSheetRow (pre ++ xs) =
      pre ++ keepFirstAux xs seen := by
  intro xs
  induction xs with
  | nil => intro pre seen; simp [dupScan, sortDesc, keepFirstAux]
  | cons row rest ih =>
    intro pre seen
    have hprelen : (pre ++ [row]).length = pre.length + 1 := by simp
    have hih := ih (pre ++ [row])
    rw [hprelen, show (pre ++ [row]) ++ rest = pre ++ row :: rest by simp] at hih
    unfold dupScan keepFirstAux
    rcases hrow : seenKey row with _ | rid
    · dsimp only
      rw [hih seen]
      simp
    · dsimp only
      by_cases hmem : rid ∈ seen
      · rw [if_pos hmem, if_pos hmem]
        have hcons : List.Pairwise (fun a b => a < b)
            ((pre.length + 1) :: dupScan rest (pre.length + 1 + 1) seen) := by
          refine List.Pairwise.cons ?_ (dupScan_sorted rest _ seen)
          intro j hj
          exact Nat.lt_of_succ_le (dupScan_ge rest _ seen j hj)
        rw [sortDesc_of_sorted _ hcons, List.reverse_cons, List.foldl_append]
        have hrev : (dupScan rest (pre.length + 1 + 1) seen).reverse =
            sortDesc (dupScan rest (pre.length + 1 + 1) seen) :=
          (sortDesc_of_sorted _ (dupScan_sorted rest _ seen)).symm
        rw [hrev, hih seen]
        show deleteSheetRow ((pre ++ [row]) ++ keepFirstAux rest seen) (pre.length + 1) =
          pre ++ keepFirstAux rest seen
        rw [show (pre ++ [row]) ++ keepFirstAux rest seen =
              pre ++ row :: keepFirstAux rest seen by simp]
        exact deleteRow_at_prefix pre row (keepFirstAux rest seen)
      · rw [if_neg hmem, if_neg hmem]
        rw [hih (seen ++ [rid])]
        simp

theorem remove_duplicates_eq_keepFirst (vals : Sheet) :
    remove_duplicates vals = keepFirst vals := by
  unfold remove_duplicates keepFirst
  split
  · rfl
  · next hlen =>
    have hv : vals.take 1 ++ vals.drop 1 = vals := List.take_append_drop 1 vals
    have hlen1 : (vals.take 1).length = 1 := by
      rw [List.length_take]
      omega
    have := scan_delete_eq_keepFirst (vals.drop 1) (vals.take 1) []
    rw [hlen1, hv] at this
    exact this

theorem keepFirstAux_fresh : ∀ (xs : List SheetRow) (seen : List String),
    ((keepFirstAux xs seen).filterMap seenKey).Nodup ∧
    ∀ t ∈ (keepFirstAux xs seen).filterMap seenKey, t ∉ seen := by
  intro xs
  induction xs with
  | nil => intro seen; exact ⟨List.nodup_nil, by intro t ht; cases ht⟩
  | cons row rest ih =>
    intro seen
    unfold keepFirstAux
    rcases hrow : seenKey row with _ | rid
    · dsimp only
      rw [List.filterMap_cons, hrow]
      exact ih seen
    · dsimp only
      by_cases hmem : rid ∈ seen
      · rw [if_pos hmem]
        exact ih seen
      · rw [if_neg hmem]
        rw [List.filterMap_cons, hrow]
        rcases ih (seen ++ [rid]) with ⟨hnd, hfr⟩
        constructor
        · refine List.nodup_cons.2 ⟨?_, hnd⟩
          intro hr
          exact hfr rid hr (List.mem_append.2 (Or.inr (List.mem_singleton.2 rfl)))
        · intro t ht
          rcases List.mem_cons.1 ht with rfl | ht'
          · exact hmem
          · intro hts
            exact hfr t ht' (List.mem_append.2 (Or.inl hts))

theorem keepFirstAux_of_fresh : ∀ (xs : List SheetRow) (seen : List String),
    (xs.filterMap seenKey).Nodup →
    (∀ t ∈ xs.filterMap seenKey, t ∉ seen) →
    keepFirstAux xs seen = xs := by
  intro xs
  induction xs with
  | nil => intro seen _ _; rfl
  | cons row rest ih =>
    intro seen hnd hfr
    unfold keepFirstAux
    rcases hrow : seenKey row with _ | rid
    · dsimp only
      rw [List.filterMap_cons, hrow] at hnd hfr
      rw [ih seen hnd hfr]
    · dsimp only
      rw [List.filterMap_cons, hrow] at hnd hfr
      have hrid : rid ∉ seen := hfr rid (List.mem_cons_self _ _)
      rw [if_neg hrid]
      have hnd' := List.nodup_cons.1 hnd
      rw [ih (seen ++ [rid]) hnd'.2 ?_]
      intro t ht hts
      rcases List.mem_append.1 hts with h | h
      · exact hfr t (List.mem_cons_of_mem _ ht) h
      · rw [List.mem_singleton.1 h] at ht
        exact hnd'.1 ht

theorem filterMap_short_nodup (l : List SheetRow) (h : l.length ≤ 1) :
    (l.filterMap seenKey).Nodup := by
  match l, h with
  | [], _ => exact List.nodup_nil
  | [x], _ =>
    rw [List.filterMap_cons]
    rcases hx : seenKey x with _ | t
    · exact List.nodup_nil
    · exact List.nodup_singleton t

theorem dedup_output_nodup (vals : Sheet) :
    (seenIds (remove_duplicates vals)).Nodup := by
  rw [remove_duplicates_eq_keepFirst]
  unfold keepFirst seenIds
  split
  · next hlen =>
    apply filterMap_short_nodup
    rw [List.length_drop]
    omega
  · next hlen =>
    obtain ⟨a, tail, rfl⟩ : ∃ a tail, vals = a :: tail := by
      cases vals with
      | nil => exact absurd (by simp) hlen
      | cons a t => exact ⟨a, t, rfl⟩
    show ((([a] ++ keepFirstAux tail []).drop 1).filterMap seenKey).Nodup
    rw [show ([a] ++ keepFirstAux tail []).drop 1 = keepFirstAux tail [] from rfl]
    exact (keepFirstAux_fresh tail []).1

theorem dedup_idempotent (vals : Sheet) :
    remove_duplicates (remove_duplicates vals) = remove_duplicates vals := by
  by_cases h1 : vals.length < 3
  · have hv : remove_duplicates vals = vals := by
      rw [remove_duplicates_eq_keepFirst, keepFirst, if_pos h1]
    rw [hv, hv]
  · have hv : remove_duplicates vals = vals.take 1 ++ keepFirstAux (vals.drop 1) [] := by
      rw [remove_duplicates_eq_keepFirst, keepFirst, if_neg h1]
    obtain ⟨a, tail, rfl⟩ : ∃ a tail, vals = a :: tail := by
      cases vals with
      | nil => exact absurd (by simp) h1
      | cons a t => exact ⟨a, t, rfl⟩
    rw [hv]
    rw [remove_duplicates_eq_keepFirst, keepFirst]
    split
    · rfl
    · show ((a :: tail).take 1 ++ keepFirstAux tail []).take 1 ++
        keepFirstAux (((a :: tail).take 1 ++ keepFirstAux tail []).drop 1) [] =
        (a :: tail).take 1 ++ keepFirstAux tail []
      rw [show (a :: tail).take 1 = [a] from rfl]
      rw [show ([a] ++ keepFirstAux tail []).take 1 = [a] from rfl]
      rw [show ([a] ++ keepFirstAux tail []).drop 1 = keepFirstAux tail [] from rfl]
      rw [keepFirstAux_of_fresh _ _ (keepFirstAux_fresh tail []).1
        (fun t _ ht => List.not_mem_nil t ht)]

/-! ## Claim C4: at most one row per record id after a reconciliation run -/

/-- C4: a reconciliation run that processes a non-empty batch leaves the
sink with pairwise-distinct tracked record ids (exactly one row per id
present), and the deduplication pass is exactly keep-first filtering: it
keeps the first occurrence of each id and deletes every later duplicate,
the bottom-up delete order making the sequential deletions equal the direct
position filter. -/
theorem sink_unique_rows_after_reconcile (records : List SheetRecord) (ts : String)
    (vals : Sheet) (hne : records ≠ []) :
    (seenIds (batch_update_records records ts vals).sheet).Nodup ∧
    remove_duplicates vals = keepFirst vals := by
  refine ⟨?_, remove_duplicates_eq_keepFirst vals⟩
  have hFalse : records.isEmpty = false := by
    cases records with
    | nil => exact absurd rfl hne
    | cons _ _ => rfl
  have hsheet : (batch_update_records records ts vals).sheet =
      remove_duplicates (applyInserts ts
        (applyUpdates ts vals
          (partitionRecords (get_all_records_with_index vals) (pyDictOfRecords records)).1)
        (partitionRecords (get_all_records_with_index vals) (pyDictOfRecords records)).2) := by
    unfold batch_update_records
    rw [hFalse]
    rfl
  rw [hsheet]
  exact dedup_output_nodup _

/-- Concrete records and sheet used to witness claim C4. -/
def wsheetC4 : Sheet :=
  [hdr7,
   ["a", "l1", "1", "1", "", "t0", "success"],
   ["a", "l2", "2", "2", "", "t0", "success"],
   ["b", "l3", "3", "3", "", "t0", "success"]]

/-- Record reconciled in the C4 witness. -/
def wrecC4 : SheetRecord := ⟨"b", "l3", some 7, some 3, none, "success"⟩

/-- Witness for C4 on a concrete dirty sheet. -/
theorem sink_unique_rows_after_reconcile_witness :
    (seenIds (batch_update_records [wrecC4] "TS" wsheetC4).sheet).Nodup ∧
    remove_duplicates wsheetC4 = keepFirst wsheetC4 :=
  sink_unique_rows_after_reconcile [wrecC4] "TS" wsheetC4 (by decide)

/-! ## Helper lemmas for the idempotence of reconciliation -/

theorem drop1_set_succ {α : Type} (l : List α) (n : Nat) (a : α) :
    (l.set (n + 1) a).drop 1 = (l.drop 1).set n a := by
  cases l <;> rfl

theorem filterMap_set_eq {α β : Type} (f : α → Option β) :
    ∀ (l : List α) (n : Nat) (a : α) (d : α), n < l.length →
    f a = f (l.getD n d) → (l.set n a).filterMap f = l.filterMap f := by
  intro l
  induction l with
  | nil => intro n a d h; cases h
  | cons x xs ih =>
    intro n a d h hf
    cases n with
    | zero =>
      show (a :: xs).filterMap f = (x :: xs).filterMap f
      rw [List.filterMap_cons, List.filterMap_cons]
      rw [show f a = f x from hf]
    | succ m =>
      show (x :: xs.set m a).filterMap f = (x :: xs).filterMap f
      rw [List.filterMap_cons, List.filterMap_cons]
      rw [ih m a d (by simpa using h) hf]

theorem set_getD_self {α : Type} : ∀ (l : List α) (n : Nat) (d : α), n < l.length →
    l.set n (l.getD n d) = l := by
  intro l
  induction l with
  | nil => intro n d h; cases h
  | cons x xs ih =>
    intro n d h
    cases n with
    | zero => rfl
    | succ m =>
      show x :: xs.set m (xs.getD m d) = x :: xs
      rw [ih m d (by simpa using h)]

theorem getD_append_left {α : Type} : ∀ (l₁ l₂ : List α) (n : Nat) (d : α), n < l₁.length →
    (l₁ ++ l₂).getD n d = l₁.getD n d := by
  intro l₁
  induction l₁ with
  | nil => intro l₂ n d h; cases h
  | cons x xs ih =>
    intro l₂ n d h
    cases n with
    | zero => rfl
    | succ m => exact ih l₂ m d (by simpa using h)

theorem getD_append_right {α : Type} : ∀ (l₁ l₂ : List α) (n : Nat) (d : α),
    (l₁ ++ l₂).getD (l₁.length + n) d = l₂.getD n d := by
  intro l₁
  induction l₁ with
  | nil =>
    intro l₂ n d
    show l₂.getD (0 + n) d = l₂.getD n d
    rw [Nat.zero_add]
  | cons x xs ih =>
    intro l₂ n d
    rw [show (x :: xs).length + n = (xs.length + n) + 1 by
      rw [List.length_cons]; omega]
    show (xs ++ l₂).getD (xs.length + n) d = l₂.getD n d
    exact ih l₂ n d

theorem getD_drop1 {α : Type} : ∀ (l : List α) (n : Nat) (d : α),
    (l.drop 1).getD n d = l.getD (n + 1) d := by
  intro l n d
  cases l <;> rfl

/-- Membership in a list at a decidable position. -/
theorem getD_mem_of_lt {α : Type} : ∀ (l : List α) (n : Nat) (d : α), n < l.length →
    l.getD n d ∈ l := by
  intro l
  induction l with
  | nil => intro n d h; cases h
  | cons x xs ih =>
    intro n d h
    cases n with
    | zero => exact List.mem_cons_self _ _
    | succ m => exact List.mem_cons_of_mem _ (ih m d (by simpa using h))

theorem mem_getD_of_mem {α : Type} (d : α) : ∀ (l : List α) (x : α), x ∈ l →
    ∃ n, n < l.length ∧ l.getD n d = x := by
  intro l
  induction l with
  | nil => intro x hx; cases hx
  | cons y ys ih =>
    intro x hx
    rcases List.mem_cons.1 hx with rfl | hx'
    · exact ⟨0, by simp, rfl⟩
    · rcases ih x hx' with ⟨n, hn, he⟩
      exact ⟨n + 1, by simpa using hn, he⟩

theorem getD_map {α β : Type} (f : α → β) : ∀ (l : List α) (n : Nat) (d : α) (dd : β),
    n < l.length → (l.map f).getD n dd = f (l.getD n d) := by
  intro l
  induction l with
  | nil => intro n d dd h; cases h
  | cons x xs ih =>
    intro n d dd h
    cases n with
    | zero => rfl
    | succ m => exact ih m d dd (by simpa using h)

/-- Two positions carrying the same key of an injective-by-Nodup filterMap
coincide. -/
theorem filterMap_nodup_inj {α β : Type} [DecidableEq β] (f : α → Option β) :
    ∀ (l : List α), (l.filterMap f).Nodup →
    ∀ (j j' : Nat) (d : α) (t : β), j < l.length → j' < l.length →
    f (l.getD j d) = some t → f (l.getD j' d) = some t → j = j' := by
  intro l
  induction l with
  | nil => intro _ j j' d t hj; cases hj
  | cons x xs ih =>
    intro hnd j j' d t hj hj' hfj hfj'
    have hnd' : (xs.filterMap f).Nodup ∧
        ∀ t', f x = some t' → t' ∉ xs.filterMap f := by
      rw [List.filterMap_cons] at hnd
      rcases hx : f x with _ | t'
      · rw [hx] at hnd
        have hnd2 : (List.filterMap f xs).Nodup := hnd
        exact ⟨hnd2, by intro t' ht'; cases ht'⟩
      · rw [hx] at hnd
        have hnd2 : (t' :: List.filterMap f xs).Nodup := hnd
        have hcons := List.nodup_cons.1 hnd2
        refine ⟨hcons.2, ?_⟩
        intro t'' ht''
        injection ht'' with he
        rw [← he]
        exact hcons.1
    cases j with
    | zero =>
      cases j' with
      | zero => rfl
      | succ m' =>
        exfalso
        have hmem : t ∈ xs.filterMap f := by
          apply List.mem_filterMap.2
          exact ⟨xs.getD m' d, getD_mem_of_lt xs m' d (by simpa using hj'), hfj'⟩
        exact hnd'.2 t hfj hmem
    | succ m =>
      cases j' with
      | zero =>
        exfalso
        have hmem : t ∈ xs.filterMap f := by
          apply List.mem_filterMap.2
          exact ⟨xs.getD m d, getD_mem_of_lt xs m d (by simpa using hj), hfj⟩
        exact hnd'.2 t hfj' hmem
      | succ m' =>
        have := ih hnd'.1 m m' d t (by simpa using hj) (by simpa using hj') hfj hfj'
        rw [this]

/-- The payload row always has exactly the seven written cells. -/
theorem payloadRow_length (r : SheetRecord) (ts : String) : (payloadRow r ts).length = 7 :=
  rfl

theorem idKey_payload (r : SheetRecord) (ts : String) (h1 : r.record_id ≠ "")
    (h2 : pyStrip r.record_id = r.record_id) :
    idKey (payloadRow r ts) = some r.record_id := by
  unfold idKey cellTruthy rowIdOf payloadRow
  simp only [List.headD]
  simp [h1, h2]

theorem seenKey_payload (r : SheetRecord) (ts : String) (h1 : r.record_id ≠ "")
    (h2 : pyStrip r.record_id = r.record_id) :
    seenKey (payloadRow r ts) = some r.record_id := by
  unfold seenKey cellTruthy rowIdOf payloadRow
  simp only [List.headD]
  simp [h1, h2]

theorem idKey_append_payload (r : SheetRecord) (ts : String) (ext : List String)
    (h1 : r.record_id ≠ "") (h2 : pyStrip r.record_id = r.record_id) :
    idKey (payloadRow r ts ++ ext) = some r.record_id := by
  unfold idKey cellTruthy rowIdOf payloadRow
  simp only [List.cons_append, List.headD]
  simp [h1, h2]

theorem seenKey_append_payload (r : SheetRecord) (ts : String) (ext : List String)
    (h1 : r.record_id ≠ "") (h2 : pyStrip r.record_id = r.record_id) :
    seenKey (payloadRow r ts ++ ext) = some r.record_id := by
  unfold seenKey cellTruthy rowIdOf payloadRow
  simp only [List.cons_append, List.headD]
  simp [h1, h2]

/-- A row with a (nonempty-stripped-id) index key also carries the same
tracked dedup key. -/
theorem seenKey_of_idKey (row : SheetRow) (t : String) (h : idKey row = some t) :
    seenKey row = some t ∧ t ≠ "" := by
  unfold idKey at h
  unfold seenKey
  by_cases hc : cellTruthy row
  · rw [if_pos hc] at h
    rw [if_pos hc]
    by_cases he : rowIdOf row = ""
    · rw [if_pos he] at h; cases h
    · rw [if_neg he] at h
      injection h with h2
      rw [h2] at he
      exact ⟨by rw [h2], he⟩
  · rw [if_neg hc] at h
    cases h

theorem sheetIndexAux_mem : ∀ (rows : List SheetRow) (i0 : Nat) (t : String) (i : Nat),
    (t, i) ∈ sheetIndexAux rows i0 ↔
    ∃ j, j < rows.length ∧ idKey (rows.getD j []) = some t ∧ i = i0 + j := by
  intro rows
  induction rows with
  | nil =>
    intro i0 t i
    constructor
    · intro h; cases h
    · rintro ⟨j, hj, _, _⟩; cases hj
  | cons row rest ih =>
    intro i0 t i
    unfold sheetIndexAux
    constructor
    · intro h
      rcases List.mem_append.1 h with h1 | h1
      · rcases hrow : idKey row with _ | t'
        · rw [hrow] at h1; cases h1
        · rw [hrow] at h1
          rcases List.mem_singleton.1 h1 with he
          injection he with he1 he2
          refine ⟨0, by simp, ?_, by omega⟩
          show idKey row = some t
          rw [hrow, he1]
      · rcases (ih (i0 + 1) t i).1 h1 with ⟨j, hj, hk, hi⟩
        exact ⟨j + 1, by simpa using hj, hk, by omega⟩
    · rintro ⟨j, hj, hk, rfl⟩
      cases j with
      | zero =>
        apply List.mem_append.2
        left
        have hk0 : idKey row = some t := hk
        rw [hk0]
        simp
      | succ m =>
        apply List.mem_append.2
        right
        apply (ih (i0 + 1) t (i0 + (m + 1))).2
        exact ⟨m, by simpa using hj, hk, by omega⟩

theorem idxLookup_foldl_none : ∀ (assoc : List (String × Nat)) (id : String)
    (acc : Option Nat),
    (assoc.foldl (fun a p => if p.1 = id then some p.2 else a) acc = none) ↔
    (acc = none ∧ ∀ p ∈ assoc, p.1 ≠ id) := by
  intro assoc
  induction assoc with
  | nil =>
    intro id acc
    constructor
    · intro h; exact ⟨h, by intro p hp; cases hp⟩
    · intro h; exact h.1
  | cons q rest ih =>
    intro id acc
    constructor
    · intro h
      rcases (ih id _).1 h with ⟨hstep, hrest⟩
      have hstep2 : (if q.1 = id then some q.2 else acc) = none := hstep
      by_cases hq : q.1 = id
      · rw [if_pos hq] at hstep2; cases hstep2
      · rw [if_neg hq] at hstep2
        refine ⟨hstep2, ?_⟩
        intro p hp
        rcases List.mem_cons.1 hp with rfl | hp'
        · exact hq
        · exact hrest p hp'
    · rintro ⟨hacc, hall⟩
      apply (ih id _).2
      have hq : ¬ q.1 = id := hall q (List.mem_cons_self _ _)
      refine ⟨?_, fun p hp => hall p (List.mem_cons_of_mem _ hp)⟩
      show (if q.1 = id then some q.2 else acc) = none
      rw [if_neg hq]
      exact hacc

theorem idxLookup_none_iff (assoc : List (String × Nat)) (id : String) :
    idxLookup assoc id = none ↔ ∀ p ∈ assoc, p.1 ≠ id := by
  unfold idxLookup
  rw [idxLookup_foldl_none]
  constructor
  · exact fun h => h.2
  · exact fun h => ⟨rfl, h⟩

theorem idxLookup_foldl_mem : ∀ (assoc : List (String × Nat)) (id : String)
    (acc : Option Nat) (i : Nat),
    assoc.foldl (fun a p => if p.1 = id then some p.2 else a) acc = some i →
    (id, i) ∈ assoc ∨ acc = some i := by
  intro assoc
  induction assoc with
  | nil => intro id acc i h; exact Or.inr h
  | cons q rest ih =>
    intro id acc i h
    rcases ih id _ i h with hmem | hacc
    · exact Or.inl (List.mem_cons_of_mem _ hmem)
    · have hacc2 : (if q.1 = id then some q.2 else acc) = some i := hacc
      by_cases hq : q.1 = id
      · rw [if_pos hq] at hacc2
        injection hacc2 with he
        left
        rw [← hq, ← he]
        exact List.mem_cons_self _ _
      · rw [if_neg hq] at hacc2
        exact Or.inr hacc2

theorem idxLookup_mem (assoc : List (String × Nat)) (id : String) (i : Nat)
    (h : idxLookup assoc id = some i) : (id, i) ∈ assoc := by
  rcases idxLookup_foldl_mem assoc id none i h with hmem | hacc
  · exact hmem
  · cases hacc

theorem idxLookup_foldl_const : ∀ (assoc : List (String × Nat)) (id : String) (i : Nat)
    (acc : Option Nat),
    (acc = some i ∨ (id, i) ∈ assoc) →
    (∀ p ∈ assoc, p.1 = id → p.2 = i) →
    assoc.foldl (fun a p => if p.1 = id then some p.2 else a) acc = some i := by
  intro assoc
  induction assoc with
  | nil =>
    intro id i acc hm _
    rcases hm with h | h
    · exact h
    · cases h
  | cons q rest ih =>
    intro id i acc hm hall
    apply ih id i
    · by_cases hq : q.1 = id
      · left
        show (if q.1 = id then some q.2 else acc) = some i
        rw [if_pos hq]
        rw [hall q (List.mem_cons_self _ _) hq]
      · rcases hm with h | h
        · left
          show (if q.1 = id then some q.2 else acc) = some i
          rw [if_neg hq]
          exact h
        · rcases List.mem_cons.1 h with he | hmem
          · exfalso
            apply hq
            rw [← he]
          · right; exact hmem
    · exact fun p hp hpid => hall p (List.mem_cons_of_mem _ hp) hpid

/-- On a sheet whose tracked data-row ids are pairwise distinct, a data row
whose index key is `k` is found by the index lookup at exactly its own
position. -/
theorem lookup_unique (vals : Sheet) (hnodup : (seenIds vals).Nodup) (k : String) (i : Nat)
    (h2 : 2 ≤ i) (hle : i ≤ vals.length)
    (hkey : idKey (vals.getD (i - 1) []) = some k) :
    idxLookup (get_all_records_with_index vals) k = some i := by
  have hlen2 : 2 ≤ vals.length := Nat.le_trans h2 hle
  unfold get_all_records_with_index
  rw [if_neg (by omega)]
  apply idxLookup_foldl_const
  · right
    apply (sheetIndexAux_mem (vals.drop 1) 2 k i).2
    refine ⟨i - 2, ?_, ?_, by omega⟩
    · rw [List.length_drop]; omega
    · rw [getD_drop1]
      rw [show i - 2 + 1 = i - 1 by omega]
      exact hkey
  · intro p hp hpk
    rcases (sheetIndexAux_mem (vals.drop 1) 2 p.1 p.2).1 hp with ⟨j, hj, hk, hi⟩
    rw [List.length_drop] at hj
    rw [getD_drop1] at hk
    rw [hpk] at hk
    have hseen1 := seenKey_of_idKey _ _ hk
    have hseen2 := seenKey_of_idKey _ _ (by rw [hkey] : idKey (vals.getD (i - 1) []) = some k)
    have hjj : j + 1 = i - 1 := by
      have hinj := filterMap_nodup_inj seenKey (vals.drop 1)
        (by exact hnodup) j (i - 2) [] k
      have h1 : j < (vals.drop 1).length := by rw [List.length_drop]; omega
      have h2' : i - 2 < (vals.drop 1).length := by rw [List.length_drop]; omega
      have e1 : seenKey ((vals.drop 1).getD j []) = some k := by
        rw [getD_drop1]; exact hseen1.1
      have e2 : seenKey ((vals.drop 1).getD (i - 2) []) = some k := by
        rw [getD_drop1, show i - 2 + 1 = i - 1 by omega]; exact hseen2.1
      have := hinj h1 h2' e1 e2
      omega
    omega

/-- An id absent from the index (and nonempty) does not occur among the
tracked data-row ids. -/
theorem insert_id_not_in_seen (vals : Sheet) (rid : String) (hrid : rid ≠ "")
    (hnone : idxLookup (get_all_records_with_index vals) rid = none) :
    rid ∉ seenIds vals := by
  intro hmem
  unfold seenIds at hmem
  rcases List.mem_filterMap.1 hmem with ⟨row, hrow, hkey⟩
  have hidk : idKey row = some rid := by
    unfold seenKey at hkey
    unfold idKey
    by_cases hc : cellTruthy row
    · rw [if_pos hc] at hkey
      rw [if_pos hc]
      injection hkey with he
      rw [he, if_neg hrid]
    · rw [if_neg hc] at hkey; cases hkey
  rcases mem_getD_of_mem [] (vals.drop 1) row hrow with ⟨j, hj, hget⟩
  have hlen2 : 2 ≤ vals.length := by
    rw [List.length_drop] at hj
    omega
  unfold get_all_records_with_index at hnone
  rw [if_neg (by omega)] at hnone
  have hbind : (rid, 2 + j) ∈ sheetIndexAux (vals.drop 1) 2 := by
    apply (sheetIndexAux_mem (vals.drop 1) 2 rid (2 + j)).2
    refine ⟨j, hj, ?_, rfl⟩
    rw [show ((vals.drop 1).getD j [] : SheetRow) = row from hget]
    exact hidk
  have := (idxLookup_none_iff _ _).1 hnone (rid, 2 + j) hbind
  exact this rfl

/-- A sheet with pairwise-distinct tracked ids passes through the dedup pass
unchanged. -/
theorem dedup_noop (vals : Sheet) (hnodup : (seenIds vals).Nodup) :
    remove_duplicates vals = vals := by
  rw [remove_duplicates_eq_keepFirst]
  unfold keepFirst
  split
  · rfl
  · rw [keepFirstAux_of_fresh (vals.drop 1) [] (by exact hnodup)
      (fun t _ ht => List.not_mem_nil t ht)]
    exact List.take_append_drop 1 vals

/-- One in-place row update keeps the tracked id list of the sheet
unchanged when the row already carries the record's id. -/
theorem seenIds_set (vals : Sheet) (i : Nat) (r : SheetRecord) (ts : String)
    (h2 : 2 ≤ i) (hle : i ≤ vals.length)
    (hid : idKey (vals.getD (i - 1) []) = some r.record_id)
    (htrim : pyStrip r.record_id = r.record_id) :
    seenIds (setSheetRow vals i (payloadRow r ts)) = seenIds vals := by
  unfold setSheetRow seenIds
  have hi1 : i - 1 = (i - 2) + 1 := by omega
  rw [hi1, drop1_set_succ]
  apply filterMap_set_eq seenKey (vals.drop 1) (i - 2) _ []
  · rw [List.length_drop]; omega
  · have hkeys := seenKey_of_idKey _ _ hid
    rw [getD_drop1, show i - 2 + 1 = i - 1 by omega]
    rw [hkeys.1]
    exact seenKey_append_payload r ts _ hkeys.2 htrim

/-- Properties of the update loop under valid, pairwise-distinct row
positions: the sheet length and tracked ids are unchanged, each updated row
holds its record's payload (plus any cells beyond column G), and untouched
rows keep their content. -/
theorem applyUpdates_props (ts : String) :
    ∀ (tu : List (Nat × SheetRecord)) (vals : Sheet),
    (∀ q ∈ tu, 2 ≤ q.1 ∧ q.1 ≤ vals.length ∧
      idKey (vals.getD (q.1 - 1) []) = some q.2.record_id ∧
      pyStrip q.2.record_id = q.2.record_id) →
    List.Pairwise (fun a b => a.1 ≠ b.1) tu →
    (applyUpdates ts vals tu).length = vals.length ∧
    seenIds (applyUpdates ts vals tu) = seenIds vals ∧
    (∀ q ∈ tu, (applyUpdates ts vals tu).getD (q.1 - 1) [] =
      payloadRow q.2 ts ++ (vals.getD (q.1 - 1) []).drop 7) ∧
    (∀ m, (∀ q ∈ tu, q.1 - 1 ≠ m) →
      (applyUpdates ts vals tu).getD m [] = vals.getD m []) := by
  intro tu
  induction tu with
  | nil =>
    intro vals _ _
    exact ⟨rfl, rfl, fun q hq => absurd hq (List.not_mem_nil q), fun m _ => rfl⟩
  | cons q rest ih =>
    intro vals hpre hpw
    have hq := hpre q (List.mem_cons_self _ _)
    have hpw' := List.pairwise_cons.1 hpw
    have happ : applyUpdates ts vals (q :: rest) =
        applyUpdates ts (setSheetRow vals q.1 (payloadRow q.2 ts)) rest := rfl
    set vals' := setSheetRow vals q.1 (payloadRow q.2 ts) with hvals'
    have hlen' : vals'.length = vals.length := by
      rw [hvals']; unfold setSheetRow; rw [List.length_set]
    have hget' : ∀ m, q.1 - 1 ≠ m → vals'.getD m [] = vals.getD m [] := by
      intro m hm
      rw [hvals']; unfold setSheetRow
      exact getD_set_ne _ _ _ _ _ hm
    have hgethit : vals'.getD (q.1 - 1) [] =
        payloadRow q.2 ts ++ (vals.getD (q.1 - 1) []).drop 7 := by
      rw [hvals']; unfold setSheetRow
      exact getD_set_self _ _ _ _ (by omega)
    have hpre' : ∀ p ∈ rest, 2 ≤ p.1 ∧ p.1 ≤ vals'.length ∧
        idKey (vals'.getD (p.1 - 1) []) = some p.2.record_id ∧
        pyStrip p.2.record_id = p.2.record_id := by
      intro p hp
      have hpv := hpre p (List.mem_cons_of_mem _ hp)
      have hne : q.1 - 1 ≠ p.1 - 1 := by
        have := hpw'.1 p hp
        omega
      refine ⟨hpv.1, by rw [hlen']; exact hpv.2.1, ?_, hpv.2.2.2⟩
      rw [hget' _ hne]
      exact hpv.2.2.1
    have hseen' : seenIds vals' = seenIds vals := by
      rw [hvals']
      exact seenIds_set vals q.1 q.2 ts hq.1 hq.2.1 hq.2.2.1 hq.2.2.2
    rcases ih vals' hpre' hpw'.2 with ⟨ihlen, ihseen, ihhit, ihmiss⟩
    rw [happ]
    refine ⟨by rw [ihlen, hlen'], by rw [ihseen, hseen'], ?_, ?_⟩
    · intro p hp
      rcases List.mem_cons.1 hp with rfl | hp'
      · rw [ihmiss (p.1 - 1) ?_]
        · exact hgethit
        · intro p' hp'
          have := hpw'.1 p' hp'
          omega
      · rw [ihhit p hp']
        have hne : q.1 - 1 ≠ p.1 - 1 := by
          have h1 := hpw'.1 p hp'
          have h2 := hpre p (List.mem_cons_of_mem _ hp')
          have h3 := hpre q (List.mem_cons_self _ _)
          omega
        rw [hget' _ hne]
    · intro m hm
      rw [ihmiss m (fun p hp => hm p (List.mem_cons_of_mem _ hp))]
      exact hget' m (hm q (List.mem_cons_self _ _))

/-- The insert loop is a single append of the payload rows. -/
theorem applyInserts_eq (ts : String) :
    ∀ (ins : List SheetRecord) (vals : Sheet),
    applyInserts ts vals ins = vals ++ ins.map (fun r => payloadRow r ts) := by
  intro ins
  induction ins with
  | nil => intro vals; simp [applyInserts]
  | cons r rest ih =>
    intro vals
    show applyInserts ts (vals ++ [payloadRow r ts]) rest = _
    rw [ih]
    simp

/-- Appending data rows appends their tracked ids. -/
theorem seenIds_append (vals : Sheet) (rows : List SheetRow) (hne : vals ≠ []) :
    seenIds (vals ++ rows) = seenIds vals ++ rows.filterMap seenKey := by
  obtain ⟨a, tail, rfl⟩ : ∃ a tail, vals = a :: tail := by
    cases vals with
    | nil => exact absurd rfl hne
    | cons a t => exact ⟨a, t, rfl⟩
  unfold seenIds
  show (tail ++ rows).filterMap seenKey = tail.filterMap seenKey ++ rows.filterMap seenKey
  rw [List.filterMap_append]

/-- The tracked ids of freshly inserted payload rows are the record ids. -/
theorem insertRows_ids (ts : String) :
    ∀ (ins : List SheetRecord),
    (∀ r ∈ ins, r.record_id ≠ "" ∧ pyStrip r.record_id = r.record_id) →
    (ins.map (fun r => payloadRow r ts)).filterMap seenKey =
      ins.map (fun r => r.record_id) := by
  intro ins
  induction ins with
  | nil => intro _; rfl
  | cons r rest ih =>
    intro h
    have hr := h r (List.mem_cons_self _ _)
    rw [List.map_cons, List.filterMap_cons, seenKey_payload r ts hr.1 hr.2]
    rw [ih (fun p hp => h p (List.mem_cons_of_mem _ hp))]
    rfl

theorem partition_mem_update_lookup (existing : List (String × Nat)) :
    ∀ (dict : List (String × SheetRecord)) (q : Nat × SheetRecord),
      q ∈ (partitionRecords existing dict).1 →
      ∃ k, (k, q.2) ∈ dict ∧ idxLookup existing k = some q.1 := by
  intro dict
  induction dict with
  | nil => intro q hq; cases hq
  | cons p rest ih =>
    intro q hq
    cases hl : idxLookup existing p.1 with
    | some i =>
      simp only [partitionRecords, hl] at hq
      rcases List.mem_cons.1 hq with rfl | hq'
      · exact ⟨p.1, List.mem_cons_self _ _, hl⟩
      · rcases ih q hq' with ⟨k, hk, hkl⟩
        exact ⟨k, List.mem_cons_of_mem _ hk, hkl⟩
    | none =>
      simp only [partitionRecords, hl] at hq
      rcases ih q hq with ⟨k, hk, hkl⟩
      exact ⟨k, List.mem_cons_of_mem _ hk, hkl⟩

theorem partition_mem_insert_lookup (existing : List (String × Nat)) :
    ∀ (dict : List (String × SheetRecord)) (r : SheetRecord),
      r ∈ (partitionRecords existing dict).2 →
      ∃ k, (k, r) ∈ dict ∧ idxLookup existing k = none := by
  intro dict
  induction dict with
  | nil => intro r hr; cases hr
  | cons p rest ih =>
    intro r hr
    cases hl : idxLookup existing p.1 with
    | some i =>
      simp only [partitionRecords, hl] at hr
      rcases ih r hr with ⟨k, hk, hkl⟩
      exact ⟨k, List.mem_cons_of_mem _ hk, hkl⟩
    | none =>
      simp only [partitionRecords, hl] at hr
      rcases List.mem_cons.1 hr with rfl | hr'
      · exact ⟨p.1, List.mem_cons_self _ _, hl⟩
      · rcases ih r hr' with ⟨k, hk, hkl⟩
        exact ⟨k, List.mem_cons_of_mem _ hk, hkl⟩

theorem partition_covers_update (existing : List (String × Nat)) :
    ∀ (dict : List (String × SheetRecord)) (p : String × SheetRecord) (i : Nat),
      p ∈ dict → idxLookup existing p.1 = some i →
      (i, p.2) ∈ (partitionRecords existing dict).1 := by
  intro dict
  induction dict with
  | nil => intro p i hp; cases hp
  | cons p0 rest ih =>
    intro p i hp hl
    rcases List.mem_cons.1 hp with rfl | hp'
    · simp only [partitionRecords, hl]
      exact List.mem_cons_self _ _
    · cases hl0 : idxLookup existing p0.1 with
      | some j =>
        simp only [partitionRecords, hl0]
        exact List.mem_cons_of_mem _ (ih p i hp' hl)
      | none =>
        simp only [partitionRecords, hl0]
        exact ih p i hp' hl

theorem partition_covers_insert (existing : List (String × Nat)) :
    ∀ (dict : List (String × SheetRecord)) (p : String × SheetRecord),
      p ∈ dict → idxLookup existing p.1 = none →
      p.2 ∈ (partitionRecords existing dict).2 := by
  intro dict
  induction dict with
  | nil => intro p hp; cases hp
  | cons p0 rest ih =>
    intro p hp hl
    rcases List.mem_cons.1 hp with rfl | hp'
    · simp only [partitionRecords, hl]
      exact List.mem_cons_self _ _
    · cases hl0 : idxLookup existing p0.1 with
      | some j =>
        simp only [partitionRecords, hl0]
        exact ih p hp' hl
      | none =>
        simp only [partitionRecords, hl0]
        exact List.mem_cons_of_mem _ (ih p hp' hl)

theorem partition_pairwise (existing : List (String × Nat))
    (hinj : ∀ k k' i, idxLookup existing k = some i → idxLookup existing k' = some i →
      k = k') :
    ∀ (dict : List (String × SheetRecord)), ((dict.map Prod.fst).Nodup) →
    List.Pairwise (fun a b => a.1 ≠ b.1) (partitionRecords existing dict).1 := by
  intro dict
  induction dict with
  | nil => intro _; exact List.Pairwise.nil
  | cons p rest ih =>
    intro hnd
    have hnd' : p.1 ∉ rest.map Prod.fst ∧ (rest.map Prod.fst).Nodup := by
      rw [List.map_cons, List.nodup_cons] at hnd
      exact hnd
    cases hl : idxLookup existing p.1 with
    | some i =>
      simp only [partitionRecords, hl]
      refine List.Pairwise.cons ?_ (ih hnd'.2)
      intro q hq
      rcases partition_mem_update_lookup existing rest q hq with ⟨k, hk, hkl⟩
      show i ≠ q.1
      intro he
      rw [← he] at hkl
      have : p.1 = k := hinj p.1 k i hl hkl
      apply hnd'.1
      rw [this]
      exact List.mem_map.2 ⟨(k, q.2), hk, rfl⟩
    | none =>
      simp only [partitionRecords, hl]
      exact ih hnd'.2

theorem partition_insert_ids_sublist (existing : List (String × Nat)) :
    ∀ (dict : List (String × SheetRecord)),
    (∀ p ∈ dict, p.2.record_id = p.1) →
    ((partitionRecords existing dict).2.map (fun r => r.record_id)).Sublist
      (dict.map Prod.fst) := by
  intro dict
  induction dict with
  | nil => intro _; exact List.Sublist.slnil
  | cons p rest ih =>
    intro hc
    have hp := hc p (List.mem_cons_self _ _)
    have ih' := ih (fun q hq => hc q (List.mem_cons_of_mem _ hq))
    cases hl : idxLookup existing p.1 with
    | some i =>
      simp only [partitionRecords, hl]
      exact List.Sublist.cons p.1 ih'
    | none =>
      simp only [partitionRecords, hl]
      rw [List.map_cons, List.map_cons, hp]
      exact List.Sublist.cons₂ p.1 ih'

theorem dict_val_mem_aux (S : List SheetRecord) :
    ∀ (records : List SheetRecord) (acc : List (String × SheetRecord)),
    (∀ r ∈ records, r ∈ S) →
    (∀ p ∈ acc, p.2 ∈ S) →
    ∀ p ∈ records.foldl dictStep acc, p.2 ∈ S := by
  intro records
  induction records with
  | nil => intro acc _ hacc p hp; exact hacc p hp
  | cons r rest ih =>
    intro acc hrecs hacc p hp
    have hr : r ∈ S := hrecs r (List.mem_cons_self _ _)
    apply ih (dictStep acc r) (fun x hx => hrecs x (List.mem_cons_of_mem _ hx)) ?_ p hp
    intro q hq
    unfold dictStep at hq
    split at hq
    · rcases List.mem_map.1 hq with ⟨q0, hq0, hqe⟩
      rw [← hqe]
      split
      · exact hr
      · exact hacc q0 hq0
    · rcases List.mem_append.1 hq with h | h
      · exact hacc q h
      · rcases List.mem_singleton.1 h with rfl
        exact hr

theorem dict_val_mem (records : List SheetRecord) :
    ∀ p ∈ pyDictOfRecords records, p.2 ∈ records :=
  dict_val_mem_aux records records [] (fun _ hr => hr)
    (fun p hp => absurd hp (List.not_mem_nil p))

/-- Distinct dict entries never share a key. -/
theorem dict_val_unique (records : List SheetRecord) (k : String) (r1 r2 : SheetRecord)
    (h1 : (k, r1) ∈ pyDictOfRecords records) (h2 : (k, r2) ∈ pyDictOfRecords records) :
    r1 = r2 := by
  have e1 := entryVal_of_mem _ (pyDict_keys_nodup records) k r1 h1
  have e2 := entryVal_of_mem _ (pyDict_keys_nodup records) k r2 h2
  rw [e1] at e2
  injection e2

/-- Rewriting a row with the first seven cells it already holds leaves the
sheet unchanged; folded over a list of such rows the update loop is the
identity. -/
theorem applyUpdates_id (ts : String) :
    ∀ (tu : List (Nat × SheetRecord)) (vals : Sheet),
    (∀ q ∈ tu, 1 ≤ q.1 ∧ q.1 ≤ vals.length ∧
      vals.getD (q.1 - 1) [] = payloadRow q.2 ts ++ (vals.getD (q.1 - 1) []).drop 7) →
    applyUpdates ts vals tu = vals := by
  intro tu
  induction tu with
  | nil => intro vals _; rfl
  | cons q rest ih =>
    intro vals hpre
    have hq := hpre q (List.mem_cons_self _ _)
    have hstep : setSheetRow vals q.1 (payloadRow q.2 ts) = vals := by
      unfold setSheetRow
      rw [← hq.2.2]
      exact set_getD_self vals (q.1 - 1) [] (by omega)
    show applyUpdates ts (setSheetRow vals q.1 (payloadRow q.2 ts)) rest = vals
    rw [hstep]
    exact ih vals (fun p hp => hpre p (List.mem_cons_of_mem _ hp))

/-- Dropping the first seven cells of a written row recovers its extra
cells. -/
theorem payload_drop7 (r : SheetRecord) (ts : String) (ext : List String) :
    (payloadRow r ts ++ ext).drop 7 = ext := rfl

/-- C3 amended: the dedup pass alone is unconditionally idempotent; the full
reconciliation is idempotent when it starts from a sink that has a header
row and pairwise-distinct tracked record ids, with input records whose ids
are nonempty and whitespace-trimmed, comparing runs made with the same write
timestamp — without the distinct-ids precondition a second run can still
change the sheet (see the counterexample). -/
theorem reconcile_idempotent_from_clean_sink (records : List SheetRecord) (ts : String)
    (vals : Sheet) (hvals : vals ≠ [])
    (hnodup : (seenIds vals).Nodup)
    (hrec : ∀ r ∈ records, r.record_id ≠ "" ∧ pyStrip r.record_id = r.record_id) :
    (batch_update_records records ts
        (batch_update_records records ts vals).sheet).sheet =
      (batch_update_records records ts vals).sheet ∧
    remove_duplicates (remove_duplicates vals) = remove_duplicates vals := by
  refine ⟨?_, dedup_idempotent vals⟩
  by_cases hempty : records.isEmpty = true
  · have h1 : batch_update_records records ts vals = ⟨vals, 0, 0⟩ := by
      unfold batch_update_records
      rw [if_pos hempty]
    rw [h1]
    show (batch_update_records records ts vals).sheet = vals
    rw [h1]
  · have hFalse : records.isEmpty = false := by
      revert hempty
      cases records.isEmpty <;> simp
    set existing := get_all_records_with_index vals with hex
    set dict := pyDictOfRecords records with hdict
    set parts := partitionRecords existing dict with hparts
    have hconsist : ∀ p ∈ dict, p.2.record_id = p.1 := pyDict_consistent records
    have hkeysnd : (dict.map Prod.fst).Nodup := pyDict_keys_nodup records
    have hdictrec : ∀ p ∈ dict, p.1 ≠ "" ∧ pyStrip p.1 = p.1 := by
      intro p hp
      have hv := dict_val_mem records p hp
      have hh := hrec p.2 hv
      rw [hconsist p hp] at hh
      exact hh
    have hinj : ∀ k k' i, idxLookup existing k = some i →
        idxLookup existing k' = some i → k = k' := by
      intro k k' i ha hb
      have hma := idxLookup_mem _ _ _ ha
      have hmb := idxLookup_mem _ _ _ hb
      rw [hex] at hma hmb
      unfold get_all_records_with_index at hma hmb
      by_cases hlen : vals.length < 2
      · rw [if_pos hlen] at hma
        cases hma
      · rw [if_neg hlen] at hma hmb
        rcases (sheetIndexAux_mem _ _ _ _).1 hma with ⟨j, hj, hk, hi⟩
        rcases (sheetIndexAux_mem _ _ _ _).1 hmb with ⟨j', hj', hk', hi'⟩
        have hjj : j = j' := by omega
        rw [hjj, hk'] at hk
        injection hk with he
        rw [he]
    have hupd : ∀ q ∈ parts.1, 2 ≤ q.1 ∧ q.1 ≤ vals.length ∧
        idKey (vals.getD (q.1 - 1) []) = some q.2.record_id ∧
        pyStrip q.2.record_id = q.2.record_id := by
      intro q hq
      rcases partition_mem_update_lookup existing dict q hq with ⟨k, hk, hkl⟩
      have hck : q.2.record_id = k := hconsist (k, q.2) hk
      have hmb := idxLookup_mem _ _ _ hkl
      rw [hex] at hmb
      unfold get_all_records_with_index at hmb
      by_cases hlen : vals.length < 2
      · rw [if_pos hlen] at hmb
        cases hmb
      · rw [if_neg hlen] at hmb
        rcases (sheetIndexAux_mem _ _ _ _).1 hmb with ⟨j, hj, hkey, hi⟩
        rw [List.length_drop] at hj
        rw [getD_drop1] at hkey
        refine ⟨by omega, by omega, ?_, by rw [hck]; exact (hdictrec (k, q.2) hk).2⟩
        rw [show q.1 - 1 = j + 1 by omega, hck]
        exact hkey
    have hpw : List.Pairwise (fun a b => a.1 ≠ b.1) parts.1 :=
      partition_pairwise existing hinj dict hkeysnd
    set vals1 := applyUpdates ts vals parts.1 with hv1
    set insRows := parts.2.map (fun r => payloadRow r ts) with hins
    set vals2 := vals1 ++ insRows with hv2
    have hsheet1 : (batch_update_records records ts vals).sheet = remove_duplicates vals2 := by
      show (batch_update_records records ts vals).sheet =
        remove_duplicates (vals1 ++ insRows)
      rw [hv1, hins, ← applyInserts_eq]
      unfold batch_update_records
      rw [hFalse]
      rfl
    rcases applyUpdates_props ts parts.1 vals hupd hpw with ⟨hlen1, hseen1, hhit1, hmiss1⟩
    rw [← hv1] at hlen1 hseen1 hhit1 hmiss1
    have hinsrec : ∀ r ∈ parts.2, r.record_id ≠ "" ∧ pyStrip r.record_id = r.record_id := by
      intro r hr
      rcases partition_mem_insert_lookup existing dict r hr with ⟨k, hk, _⟩
      have hck : r.record_id = k := hconsist (k, r) hk
      have hh := hdictrec (k, r) hk
      rw [← hck] at hh
      exact hh
    have hinsids : insRows.filterMap seenKey = parts.2.map (fun r => r.record_id) := by
      rw [hins]
      exact insertRows_ids ts parts.2 hinsrec
    have hv1ne : vals1 ≠ [] := by
      intro h
      apply hvals
      rw [h] at hlen1
      exact List.length_eq_zero.1 hlen1.symm
    have hseen2 : seenIds vals2 = seenIds vals ++ parts.2.map (fun r => r.record_id) := by
      rw [hv2, seenIds_append vals1 insRows hv1ne, hseen1, hinsids]
    have hnd2 : (seenIds vals2).Nodup := by
      rw [hseen2, List.nodup_append]
      refine ⟨hnodup, ?_, ?_⟩
      · exact (partition_insert_ids_sublist existing dict hconsist).nodup hkeysnd
      · intro t ht hti
        rcases List.mem_map.1 hti with ⟨r, hr, rfl⟩
        rcases partition_mem_insert_lookup existing dict r hr with ⟨k, hk, hklnone⟩
        have hck : r.record_id = k := hconsist (k, r) hk
        refine insert_id_not_in_seen vals r.record_id (hinsrec r hr).1 ?_ ht
        rw [hck]
        exact hklnone
    have hs1 : (batch_update_records records ts vals).sheet = vals2 := by
      rw [hsheet1, dedup_noop vals2 hnd2]
    rw [hs1]
    set existing2 := get_all_records_with_index vals2 with hex2
    set parts2 := partitionRecords existing2 dict with hparts2
    have hlen2q : vals2.length = vals1.length + insRows.length := by
      rw [hv2, List.length_append]
    have hentry : ∀ k rec, (k, rec) ∈ dict → ∃ pos, idxLookup existing2 k = some pos ∧
        1 ≤ pos ∧ pos ≤ vals2.length ∧
        vals2.getD (pos - 1) [] =
          payloadRow rec ts ++ (vals2.getD (pos - 1) []).drop 7 := by
      intro k rec hk
      have hck : rec.record_id = k := hconsist (k, rec) hk
      have hktrim := hdictrec (k, rec) hk
      have hrid1 : rec.record_id ≠ "" := by rw [hck]; exact hktrim.1
      have hrid2 : pyStrip rec.record_id = rec.record_id := by
        rw [hck]
        conv in pyStrip k => rw [← hck]
        rw [hck]
        exact hktrim.2
      cases hl : idxLookup existing k with
      | some i =>
        have hmu : (i, rec) ∈ parts.1 := partition_covers_update existing dict (k, rec) i hk hl
        have hrow1 : vals1.getD (i - 1) [] =
            payloadRow rec ts ++ (vals.getD (i - 1) []).drop 7 := hhit1 (i, rec) hmu
        have hbounds := hupd (i, rec) hmu
        have hrow2 : vals2.getD (i - 1) [] =
            payloadRow rec ts ++ (vals.getD (i - 1) []).drop 7 := by
          rw [hv2, getD_append_left _ _ _ _ (by rw [hlen1]; omega), hrow1]
        refine ⟨i, ?_, by omega, by rw [hlen2q, hlen1]; omega, ?_⟩
        · apply lookup_unique vals2 hnd2 k i hbounds.1 (by rw [hlen2q, hlen1]; omega)
          rw [hrow2, idKey_append_payload rec ts _ hrid1 hrid2, hck]
        · rw [hrow2, payload_drop7]
      | none =>
        have hmi : rec ∈ parts.2 := partition_covers_insert existing dict (k, rec) hk hl
        rcases mem_getD_of_mem ⟨"", "", none, none, none, ""⟩ parts.2 rec hmi with
          ⟨j, hj, hgd⟩
        have hjlen : j < insRows.length := by
          rw [hins, List.length_map]
          exact hj
        have hrow2 : vals2.getD (vals1.length + j) [] = payloadRow rec ts := by
          rw [hv2, getD_append_right, hins]
          rw [getD_map (fun r => payloadRow r ts) parts.2 j ⟨"", "", none, none, none, ""⟩ [] hj]
          rw [hgd]
        have hv1len : 1 ≤ vals1.length := by
          rw [hlen1]
          cases vals with
          | nil => exact absurd rfl hvals
          | cons a t => simp
        refine ⟨vals1.length + j + 1, ?_, by omega, by rw [hlen2q]; omega, ?_⟩
        · apply lookup_unique vals2 hnd2 k (vals1.length + j + 1) (by omega)
            (by rw [hlen2q]; omega)
          rw [show vals1.length + j + 1 - 1 = vals1.length + j by omega, hrow2]
          rw [show (payloadRow rec ts : SheetRow) =
            payloadRow rec ts ++ ([] : SheetRow) by simp]
          rw [idKey_append_payload rec ts _ hrid1 hrid2, hck]
        · rw [show vals1.length + j + 1 - 1 = vals1.length + j by omega, hrow2]
          rw [show ((payloadRow rec ts : SheetRow).drop 7) = ([] : SheetRow) from rfl]
          rw [List.append_nil]
    have hins2 : parts2.2 = [] := by
      rcases hp2 : parts2.2 with _ | ⟨r, rest⟩
      · rfl
      · exfalso
        have hr : r ∈ parts2.2 := by rw [hp2]; exact List.mem_cons_self _ _
        rcases partition_mem_insert_lookup existing2 dict r hr with ⟨k, hk, hklnone⟩
        rcases hentry k r hk with ⟨pos, hpos, _⟩
        rw [hklnone] at hpos
        cases hpos
    have hupd2 : applyUpdates ts vals2 parts2.1 = vals2 := by
      apply applyUpdates_id
      intro q hq
      rcases partition_mem_update_lookup existing2 dict q hq with ⟨k, hk, hkl⟩
      rcases hentry k q.2 hk with ⟨pos, hpos, hge, hle, hrow⟩
      rw [hkl] at hpos
      injection hpos with he
      refine ⟨by omega, by omega, ?_⟩
      rw [he]
      exact hrow
    show (batch_update_records records ts vals2).sheet = vals2
    have hsheetrun2 : (batch_update_records records ts vals2).sheet =
        remove_duplicates (applyInserts ts (applyUpdates ts vals2 parts2.1) parts2.2) := by
      unfold batch_update_records
      rw [hFalse]
      rfl
    rw [hsheetrun2, hins2, hupd2]
    show remove_duplicates vals2 = vals2
    exact dedup_noop vals2 hnd2

/-- Records for the C3 idempotence witness. -/
def wrecC3a : SheetRecord := ⟨"k1", "https://a", some 4, some 2, some "2024-05-05", "success"⟩

/-- Second witness record, a fresh id to be inserted. -/
def wrecC3b : SheetRecord := ⟨"k2", "https://b", none, some 0, none, "partial"⟩

/-- A clean sheet for the C3 idempotence witness. -/
def wsheetC3 : Sheet :=
  [hdr7, ["k1", "https://a", "1", "1", "2024-01-01", "t0", "success"]]

/-- Witness for the amended C3 at a concrete clean sheet. -/
theorem reconcile_idempotent_from_clean_sink_witness :
    (batch_update_records [wrecC3a, wrecC3b] "TS"
        (batch_update_records [wrecC3a, wrecC3b] "TS" wsheetC3).sheet).sheet =
      (batch_update_records [wrecC3a, wrecC3b] "TS" wsheetC3).sheet ∧
    remove_duplicates (remove_duplicates wsheetC3) = remove_duplicates wsheetC3 :=
  reconcile_idempotent_from_clean_sink [wrecC3a, wrecC3b] "TS" wsheetC3
    (by decide) (by decide) (by decide)

/-! ## Claim C1: broken results never carry data -/

/-- The invariant a broken crawl result must satisfy: all metric fields and
the publish date are null. -/
def brokenClean (r : CrawlResult) : Prop :=
  r.is_broken = true → r.views = none ∧ r.likes = none ∧ r.comments = none ∧
    r.shares = none ∧ r.publish_date = none

theorem genericTerminal_clean (cfg : CrawlerConfig) (existing : Option String)
    (url msg : String) (s : CrawlerState) :
    brokenClean (genericTerminal cfg existing url msg s).2 := by
  unfold genericTerminal brokenClean
  split
  · intro _; exact ⟨rfl, rfl, rfl, rfl, rfl⟩
  · intro h; cases h

theorem crawlAux_broken_clean (cfg : CrawlerConfig) (env : CrawlEnv)
    (existing : Option String) :
    ∀ (fuel : Nat) (url : String) (retry : Nat) (s : CrawlerState),
    brokenClean (crawlSingleAux cfg env existing fuel url retry s).2 := by
  intro fuel
  induction fuel with
  | zero => intro url retry s h; cases h
  | succ n ih =>
    intro url retry s
    simp only [crawlSingleAux]
    rcases hval : validate_tiktok_url url with ⟨b, url2⟩
    cases b with
    | false => intro _; exact ⟨rfl, rfl, rfl, rfl, rfl⟩
    | true =>
      dsimp only
      split
      · intro h; cases h
      · generalize (if cfg.restart_browser_every ≤ s.videos_since_restart then
          (start_browser env s).2 else s) = s1
        generalize (if s1.browserRunning = true then (true, s1)
          else start_browser env s1) = ens
        by_cases h1 : ens.1 = false
        · rw [if_pos h1]
          intro h; cases h
        · rw [if_neg h1]
          generalize ({ ens.2 with attemptsMade := ens.2.attemptsMade + 1 } :
            CrawlerState) = s2
          rcases hatt : env.attempts retry with _ | m | data
          · dsimp only
            split
            · exact ih _ _ _
            · intro _; exact ⟨rfl, rfl, rfl, rfl, rfl⟩
          · dsimp only
            split
            · exact ih _ _ _
            · exact genericTerminal_clean _ _ _ _ _
          · dsimp only
            rcases data with _ | d
            · dsimp only
              split
              · exact ih _ _ _
              · exact genericTerminal_clean _ _ _ _ _
            · dsimp only
              split
              · intro h; cases h
              · split
                · exact ih _ _ _
                · exact genericTerminal_clean _ _ _ _ _

/-- Broken crawl results map to fully blanked sink records. -/
theorem process_broken_blanks (record_id : String) (link_value : Option String)
    (views_lark baseline_value : Option Int) (pdl : Option String) (tr : CrawlResult)
    (p : ProcessedRecord) (hbr : tr.is_broken = true)
    (hp : process_lark_record_core record_id link_value views_lark baseline_value pdl
      (some tr) = some p) :
    p.views = none ∧ p.baseline = none ∧ p.publish_date = none ∧
    p.status = "broken" ∧ p.is_broken = true := by
  unfold process_lark_record_core at hp
  rcases link_value with _ | link
  · cases hp
  · dsimp only at hp
    by_cases hl : link = ""
    · rw [if_pos hl] at hp; cases hp
    · rw [if_neg hl] at hp
      have hp2 : (if tr.is_broken = true then
          some (⟨record_id, link, none, none, none, "broken", true⟩ : ProcessedRecord)
        else if tr.success = true then
          match tr.views with
          | some v =>
            if 0 < v then
              some ⟨record_id, link, some v,
                some (pyOrInt baseline_value (pyOrInt views_lark 0)),
                pyOrStr tr.publish_date pdl, "success", false⟩
            else some ⟨record_id, link, some (pyOrInt views_lark 0),
              some (pyOrInt baseline_value (pyOrInt views_lark 0)), pdl, "partial", false⟩
          | none => none
        else some ⟨record_id, link, some (pyOrInt views_lark 0),
          some (pyOrInt baseline_value (pyOrInt views_lark 0)), pdl, "partial", false⟩) =
          some p := hp
      rw [if_pos hbr] at hp2
      injection hp2 with he
      rw [← he]
      exact ⟨rfl, rfl, rfl, rfl, rfl⟩

/-- C1: a crawl result with `is_broken = true` carries null views (and null
likes, comments, shares and publish date), and the sink record built from it
by `process_lark_record` carries null views, baseline and publish date with
status "broken" — a broken link never forwards numeric data into the sink. -/
theorem broken_results_carry_no_data (cfg : CrawlerConfig) (env : CrawlEnv)
    (existing : Option String) (url : String) (retry : Nat) (s : CrawlerState)
    (hbr : (crawl_single cfg env url existing retry s).2.is_broken = true) :
    (crawl_single cfg env url existing retry s).2.views = none ∧
    (crawl_single cfg env url existing retry s).2.publish_date = none ∧
    (∀ record_id link_value views_lark baseline_value pdl p,
      process_lark_record_core record_id link_value views_lark baseline_value pdl
        (some (crawl_single cfg env url existing retry s).2) = some p →
      p.views = none ∧ p.baseline = none ∧ p.publish_date = none ∧
      p.status = "broken" ∧ p.is_broken = true) := by
  have hclean := crawlAux_broken_clean cfg env existing
    (cfg.max_retries - retry + 1) url retry s hbr
  refine ⟨hclean.1, hclean.2.2.2.2, ?_⟩
  intro record_id link_value views_lark baseline_value pdl p hp
  exact process_broken_blanks record_id link_value views_lark baseline_value pdl _ p hbr hp

/-- Environment for the C1 witness: a single navigation raising a
not-found error. -/
def wenvC1 : CrawlEnv :=
  ⟨fun _ => AttemptOutcome.raised "Video not found (404)", fun _ => true⟩

/-- State used by the crawl-engine witnesses: browser already running,
fresh counters. -/
def wstate : CrawlerState := ⟨true, 0, 0, 0, 0, 0, 0, 0, [], 0, 0⟩

/-- URL used by the crawl-engine witnesses (a fixed point of the
validator). -/
def wurl : String := "https://www.tiktok.com/@user/video/123456"

/-- Witness for C1: a concrete broken crawl (404 after retries) yields null
fields and a blank broken sink record. -/
theorem broken_results_carry_no_data_witness :
    (crawl_single defaultConfig wenvC1 wurl none 0 wstate).2.views = none ∧
    (crawl_single defaultConfig wenvC1 wurl none 0 wstate).2.publish_date = none ∧
    (∀ record_id link_value views_lark baseline_value pdl p,
      process_lark_record_core record_id link_value views_lark baseline_value pdl
        (some (crawl_single defaultConfig wenvC1 wurl none 0 wstate).2) = some p →
      p.views = none ∧ p.baseline = none ∧ p.publish_date = none ∧
      p.status = "broken" ∧ p.is_broken = true) :=
  broken_results_carry_no_data defaultConfig wenvC1 none wurl 0 wstate (by decide)

/-! ## Claim C5: publish-date priority on a successful crawl -/

/-- C5: with the default preserve-existing-date policy, a successful crawl
keeps a validly formatted existing ledger date unchanged (discarding the
freshly scraped one); with an empty or invalid existing date it adopts the
newly extracted date when that is valid, and otherwise returns a null
publish date.  The crawled metrics are returned as extracted. -/
theorem publish_date_priority_on_success (cfg : CrawlerConfig) (env : CrawlEnv)
    (url0 : String) (existing : Option String) (retry : Nat) (s : CrawlerState)
    (url : String) (d : ExtractedData)
    (hpres : cfg.preserve_existing_publish_date = true)
    (hval : validate_tiktok_url url0 = (true, url))
    (hcc : s.consecutive_crashes < cfg.max_consecutive_crashes)
    (hstarts : ∀ k, env.starts k = true)
    (hatt : env.attempts retry = AttemptOutcome.page (some d))
    (hviews : 0 < d.views) :
    (crawl_single cfg env url0 existing retry s).2.success = true ∧
    (crawl_single cfg env url0 existing retry s).2.publish_date =
      (if is_valid_publish_date existing then existing
       else if is_valid_publish_date d.publish_date then d.publish_date else none) ∧
    (crawl_single cfg env url0 existing retry s).2.views = some d.views ∧
    (crawl_single cfg env url0 existing retry s).2.is_broken = false := by
  unfold crawl_single
  simp only [crawlSingleAux]
  rw [hval]
  dsimp only
  rw [if_neg (by omega : ¬ cfg.max_consecutive_crashes ≤ s.consecutive_crashes)]
  generalize (if cfg.restart_browser_every ≤ s.videos_since_restart then
    (start_browser env s).2 else s) = s1
  have hens : (if s1.browserRunning = true then (true, s1)
      else start_browser env s1).1 = true := by
    split
    · rfl
    · unfold start_browser
      rw [hstarts]
      rfl
  generalize hge : (if s1.browserRunning = true then (true, s1)
    else start_browser env s1) = ens
  rw [hge] at hens
  rw [if_neg (by rw [hens]; intro h; cases h)]
  rw [hatt]
  dsimp only
  rw [if_pos hviews, hpres]
  dsimp only
  by_cases h1 : is_valid_publish_date existing = true
  · rw [if_pos h1, if_pos h1]
    exact ⟨rfl, rfl, rfl, rfl⟩
  · rw [if_neg h1, if_neg h1]
    by_cases h2 : is_valid_publish_date d.publish_date = true
    · rw [if_pos h2, if_pos h2]
      exact ⟨rfl, rfl, rfl, rfl⟩
    · rw [if_neg h2, if_neg h2]
      exact ⟨rfl, rfl, rfl, rfl⟩

/-- Environment for the C5 witness: the first attempt extracts data with a
fresh date while the ledger already has a valid one. -/
def wenvC5 : CrawlEnv :=
  ⟨fun _ => AttemptOutcome.page (some ⟨50000, 10, 2, 1, some "2024-03-01"⟩), fun _ => true⟩

/-- Witness for C5: the existing valid ledger date 2024-01-15 survives a
successful crawl that extracted 2024-03-01. -/
theorem publish_date_priority_on_success_witness :
    (crawl_single defaultConfig wenvC5 wurl (some "2024-01-15") 0 wstate).2.success = true ∧
    (crawl_single defaultConfig wenvC5 wurl (some "2024-01-15") 0 wstate).2.publish_date =
      (if is_valid_publish_date (some "2024-01-15") then some "2024-01-15"
       else if is_valid_publish_date (some "2024-03-01") then some "2024-03-01" else none) ∧
    (crawl_single defaultConfig wenvC5 wurl (some "2024-01-15") 0 wstate).2.views =
      some 50000 ∧
    (crawl_single defaultConfig wenvC5 wurl (some "2024-01-15") 0 wstate).2.is_broken =
      false :=
  publish_date_priority_on_success defaultConfig wenvC5 wurl (some "2024-01-15") 0 wstate
    wurl ⟨50000, 10, 2, 1, some "2024-03-01"⟩ rfl (by decide) (by decide)
    (fun _ => rfl) rfl (by decide)

/-! ## Claim C7: exhausted timeouts give a broken Timeout result -/

/-- When every launch succeeds, `start_browser` resets the session
counters. -/
theorem start_browser_ok (env : CrawlEnv) (s : CrawlerState)
    (hstarts : ∀ k, env.starts k = true) :
    start_browser env s = (true,
      { s with startCount := s.startCount + 1, browserRunning := true,
               videos_since_restart := 0, consecutive_crashes := 0 }) := by
  unfold start_browser
  rw [hstarts]
  rfl

set_option maxHeartbeats 1600000 in
theorem timeout_aux (cfg : CrawlerConfig) (env : CrawlEnv) (existing : Option String)
    (url : String)
    (hfix : validate_tiktok_url url = (true, url))
    (hstarts : ∀ k, env.starts k = true)
    (htime : ∀ i, env.attempts i = AttemptOutcome.timeout)
    (hbudget : 0 < cfg.max_consecutive_crashes) :
    ∀ (k retry : Nat) (s : CrawlerState), k = cfg.max_retries - retry →
      retry ≤ cfg.max_retries →
      s.consecutive_crashes < cfg.max_consecutive_crashes →
      (crawlSingleAux cfg env existing (k + 1) url retry s).2 = timeoutResult url := by
  intro k
  induction k with
  | zero =>
    intro retry s hk hle hcc
    simp only [crawlSingleAux]
    rw [hfix]
    dsimp only
    rw [if_neg (by omega : ¬ cfg.max_consecutive_crashes ≤ s.consecutive_crashes)]
    generalize (if cfg.restart_browser_every ≤ s.videos_since_restart then
      (start_browser env s).2 else s) = s1
    have hens : (if s1.browserRunning = true then (true, s1)
        else start_browser env s1).1 = true := by
      split
      · rfl
      · rw [start_browser_ok env s1 hstarts]
    generalize hge : (if s1.browserRunning = true then (true, s1)
      else start_browser env s1) = ens
    rw [hge] at hens
    rw [if_neg (by rw [hens]; intro h; cases h)]
    rw [htime retry]
    dsimp only
    rw [if_neg (by omega : ¬ retry < cfg.max_retries)]
  | succ n ih =>
    intro retry s hk hle hcc
    have hretrylt : retry < cfg.max_retries := by omega
    simp only [crawlSingleAux]
    rw [hfix]
    dsimp only
    rw [if_neg (by omega : ¬ cfg.max_consecutive_crashes ≤ s.consecutive_crashes)]
    generalize (if cfg.restart_browser_every ≤ s.videos_since_restart then
      (start_browser env s).2 else s) = s1
    have hens : (if s1.browserRunning = true then (true, s1)
        else start_browser env s1).1 = true := by
      split
      · rfl
      · rw [start_browser_ok env s1 hstarts]
    generalize hge : (if s1.browserRunning = true then (true, s1)
      else start_browser env s1) = ens
    rw [hge] at hens
    rw [if_neg (by rw [hens]; intro h; cases h)]
    rw [htime retry]
    dsimp only
    rw [if_pos hretrylt]
    apply ih (retry + 1) _ (by omega) (by omega)
    rw [start_browser_ok env _ hstarts]
    exact hbudget

/-- C7: when navigation of a valid URL times out on the initial attempt and
on every retry, `crawl_single` returns the terminal Timeout result:
`success = false`, error "Timeout", `is_broken = true`, with all metric
fields and the publish date null. -/
theorem timeout_exhaustion_broken (cfg : CrawlerConfig) (env : CrawlEnv)
    (existing : Option String) (url : String) (s : CrawlerState)
    (hfix : validate_tiktok_url url = (true, url))
    (hstarts : ∀ k, env.starts k = true)
    (htime : ∀ i, env.attempts i = AttemptOutcome.timeout)
    (hcc : s.consecutive_crashes < cfg.max_consecutive_crashes) :
    (crawl_single cfg env url existing 0 s).2 =
      ⟨url, false, none, none, none, none, none, some "Timeout", true⟩ := by
  have hbudget : 0 < cfg.max_consecutive_crashes := by omega
  have := timeout_aux cfg env existing url hfix hstarts htime hbudget
    (cfg.max_retries - 0) 0 s rfl (by omega) hcc
  exact this

/-- Environment for the C7 witness: every navigation times out. -/
def wenvC7 : CrawlEnv := ⟨fun _ => AttemptOutcome.timeout, fun _ => true⟩

/-- Witness for C7 at a concrete URL and a fresh state. -/
theorem timeout_exhaustion_broken_witness :
    (crawl_single defaultConfig wenvC7 wurl (some "2024-01-15") 0 wstate).2 =
      ⟨wurl, false, none, none, none, none, none, some "Timeout", true⟩ :=
  timeout_exhaustion_broken defaultConfig wenvC7 (some "2024-01-15") wurl wstate
    (by decide) (fun _ => rfl) (fun _ => rfl) (by decide)


/-! ## Claim C6: crash-loop containment -/

/-- A session-crash attempt outcome: a raised message that is
crash-classified and not broken-classified. -/
def isCrashRaise (a : AttemptOutcome) : Prop :=
  match a with
  | AttemptOutcome.raised m =>
    isCrashError (truncate100 m) = true ∧ isBrokenError (truncate100 m) = false
  | _ => False

/-- What a crash-exhausted run leaves behind, relative to the entry state
`s` and the number `k` of retries the budget still allowed: a failed,
non-broken result that keeps a valid ledger date, a reset crash counter,
exactly `k + 1` attempts consumed, and at most three session starts per
attempt. -/
def crashOutcome (existing : Option String) (s : CrawlerState) (k : Nat)
    (out : CrawlerState × CrawlResult) : Prop :=
  out.2.success = false ∧ out.2.is_broken = false ∧
  out.2.publish_date = (if is_valid_publish_date existing then existing else none) ∧
  out.1.consecutive_crashes = 0 ∧
  out.1.attemptsMade = s.attemptsMade + (k + 1) ∧
  out.1.startCount ≤ s.startCount + 3 * (k + 1)

theorem crashOutcome_mono (existing : Option String) (s s' : CrawlerState) (k : Nat)
    (out : CrawlerState × CrawlResult) (h : crashOutcome existing s' k out)
    (ha : s'.attemptsMade = s.attemptsMade + 1)
    (hs : s'.startCount ≤ s.startCount + 3) :
    crashOutcome existing s (k + 1) out := by
  obtain ⟨h1, h2, h3, h4, h5, h6⟩ := h
  exact ⟨h1, h2, h3, h4, by omega, by omega⟩

set_option maxHeartbeats 4000000 in
theorem crash_loop_aux (cfg : CrawlerConfig) (env : CrawlEnv) (existing : Option String)
    (url : String)
    (hfix : validate_tiktok_url url = (true, url))
    (hstarts : ∀ k, env.starts k = true)
    (hcrash : ∀ i, isCrashRaise (env.attempts i))
    (hbudget : 0 < cfg.max_consecutive_crashes) :
    ∀ (k retry : Nat) (s : CrawlerState), k = cfg.max_retries - retry →
      retry ≤ cfg.max_retries →
      s.consecutive_crashes < cfg.max_consecutive_crashes →
      crashOutcome existing s k (crawlSingleAux cfg env existing (k + 1) url retry s) := by
  intro k
  induction k with
  | zero =>
    intro retry s hk hle hcc
    simp only [crawlSingleAux]
    rw [hfix]
    dsimp only
    rw [if_neg (by omega : ¬ cfg.max_consecutive_crashes ≤ s.consecutive_crashes)]
    set s1 := (if cfg.restart_browser_every ≤ s.videos_since_restart then
      (start_browser env s).2 else s) with hs1
    have hs1a : s1.attemptsMade = s.attemptsMade := by
      rw [hs1]
      split
      · rw [start_browser_ok env s hstarts]
      · rfl
    have hs1b : s1.startCount ≤ s.startCount + 1 := by
      rw [hs1]
      split
      · rw [start_browser_ok env s hstarts]
      · exact Nat.le_succ _
    set ens := (if s1.browserRunning = true then (true, s1)
      else start_browser env s1) with hens
    have hensa : ens.1 = true := by
      rw [hens]
      split
      · rfl
      · rw [start_browser_ok env s1 hstarts]
    have hensb : ens.2.attemptsMade = s1.attemptsMade := by
      rw [hens]
      split
      · rfl
      · rw [start_browser_ok env s1 hstarts]
    have hensc : ens.2.startCount ≤ s1.startCount + 1 := by
      rw [hens]
      split
      · exact Nat.le_succ _
      · rw [start_browser_ok env s1 hstarts]
    rw [if_neg (by rw [hensa]; intro h; cases h)]
    have hc := hcrash retry
    rcases hatt : env.attempts retry with _ | m | dat
    · rw [hatt] at hc; exact hc.elim
    · rw [hatt] at hc
      have hc2 : isCrashError (truncate100 m) = true ∧
          isBrokenError (truncate100 m) = false := hc
      dsimp only
      rw [if_neg (by omega : ¬ retry < cfg.max_retries)]
      unfold crashRestartStep
      rw [if_pos hc2.1]
      unfold genericTerminal
      dsimp only
      rw [if_neg (by simp [hc2.2])]
      rw [start_browser_ok env _ hstarts]
      refine ⟨rfl, rfl, rfl, rfl, ?_, ?_⟩
      · show ens.2.attemptsMade + 1 = s.attemptsMade + (0 + 1)
        omega
      · show ens.2.startCount + 1 ≤ s.startCount + 3 * (0 + 1)
        omega
    · rw [hatt] at hc; exact hc.elim
  | succ n ih =>
    intro retry s hk hle hcc
    have hretrylt : retry < cfg.max_retries := by omega
    simp only [crawlSingleAux]
    rw [hfix]
    dsimp only
    rw [if_neg (by omega : ¬ cfg.max_consecutive_crashes ≤ s.consecutive_crashes)]
    set s1 := (if cfg.restart_browser_every ≤ s.videos_since_restart then
      (start_browser env s).2 else s) with hs1
    have hs1a : s1.attemptsMade = s.attemptsMade := by
      rw [hs1]
      split
      · rw [start_browser_ok env s hstarts]
      · rfl
    have hs1b : s1.startCount ≤ s.startCount + 1 := by
      rw [hs1]
      split
      · rw [start_browser_ok env s hstarts]
      · exact Nat.le_succ _
    set ens := (if s1.browserRunning = true then (true, s1)
      else start_browser env s1) with hens
    have hensa : ens.1 = true := by
      rw [hens]
      split
      · rfl
      · rw [start_browser_ok env s1 hstarts]
    have hensb : ens.2.attemptsMade = s1.attemptsMade := by
      rw [hens]
      split
      · rfl
      · rw [start_browser_ok env s1 hstarts]
    have hensc : ens.2.startCount ≤ s1.startCount + 1 := by
      rw [hens]
      split
      · exact Nat.le_succ _
      · rw [start_browser_ok env s1 hstarts]
    rw [if_neg (by rw [hensa]; intro h; cases h)]
    have hc := hcrash retry
    rcases hatt : env.attempts retry with _ | m | dat
    · rw [hatt] at hc; exact hc.elim
    · rw [hatt] at hc
      have hc2 : isCrashError (truncate100 m) = true ∧
          isBrokenError (truncate100 m) = false := hc
      dsimp only
      rw [if_pos hretrylt]
      unfold crashRestartStep
      rw [if_pos hc2.1]
      rw [start_browser_ok env _ hstarts]
      refine crashOutcome_mono existing s _ n _
        (ih (retry + 1) _ (by omega) (by omega) ?_) ?_ ?_
      · exact hbudget
      · show ens.2.attemptsMade + 1 = s.attemptsMade + 1
        omega
      · show ens.2.startCount + 1 ≤ s.startCount + 3
        omega
    · rw [hatt] at hc; exact hc.elim


/-- C6: under the default configuration, a valid URL whose every attempt
raises a crash-classified (and not broken-classified) error is processed
for exactly `max_retries + 1 = 4` attempts — no more than the crash budget
`max_consecutive_crashes = 5` — before `crawl_single` returns a terminal
failed result with `is_broken = false` that preserves a valid existing
publish date; the consecutive-crash counter is reset to zero and the total
number of session starts in the sequence is bounded by three per attempt. -/
theorem crash_loop_contained (env : CrawlEnv) (existing : Option String)
    (url : String) (s : CrawlerState)
    (hfix : validate_tiktok_url url = (true, url))
    (hstarts : ∀ k, env.starts k = true)
    (hcrash : ∀ i, isCrashRaise (env.attempts i))
    (hcc : s.consecutive_crashes < defaultConfig.max_consecutive_crashes) :
    crashOutcome existing s 3 (crawl_single defaultConfig env url existing 0 s) ∧
    3 + 1 ≤ defaultConfig.max_consecutive_crashes :=
  ⟨crash_loop_aux defaultConfig env existing url hfix hstarts hcrash (by decide)
     3 0 s rfl (by decide) hcc, by decide⟩

/-- Environment for the C6 witness: every attempt raises a crash-classified
session error. -/
def wenvC6 : CrawlEnv :=
  ⟨fun _ => AttemptOutcome.raised "Target closed", fun _ => true⟩

/-- Witness for C6 at a concrete URL and a fresh state. -/
theorem crash_loop_contained_witness :
    crashOutcome (some "2024-01-15") wstate 3
      (crawl_single defaultConfig wenvC6 wurl (some "2024-01-15") 0 wstate) ∧
    3 + 1 ≤ defaultConfig.max_consecutive_crashes :=
  crash_loop_contained wenvC6 (some "2024-01-15") wurl wstate
    (by decide) (fun _ => rfl) (fun _ => ⟨by decide, by decide⟩) (by decide)


/-! ## Claim C8: quota backoff and single retry in the write loops -/

/-- Both write loops produce one report per input item — an item failure
never truncates the run — and every report is the step outcome at some
attempt index (update loop). -/
theorem updateLoop_reports (wenv : WriteEnv) :
    ∀ (items : List (Nat × SheetRecord)) (k : Nat),
      (updateLoopWithErrors wenv items k).1.length = items.length ∧
      ∀ r ∈ (updateLoopWithErrors wenv items k).1, ∃ j, r = (writeItemStep wenv j).1 := by
  intro items
  induction items with
  | nil => intro k; exact ⟨rfl, fun r hr => absurd hr (List.not_mem_nil r)⟩
  | cons x rest ih =>
    intro k
    constructor
    · show ((writeItemStep wenv k).1 ::
        (updateLoopWithErrors wenv rest (k + (writeItemStep wenv k).2)).1).length
        = rest.length + 1
      rw [List.length_cons, (ih (k + (writeItemStep wenv k).2)).1]
    · intro r hr
      have hr2 : r ∈ (writeItemStep wenv k).1 ::
          (updateLoopWithErrors wenv rest (k + (writeItemStep wenv k).2)).1 := hr
      rcases List.mem_cons.mp hr2 with h | h
      · exact ⟨k, h⟩
      · exact (ih _).2 r h

/-- Same for the insert loop. -/
theorem insertLoop_reports (wenv : WriteEnv) :
    ∀ (items : List SheetRecord) (k : Nat),
      (insertLoopWithErrors wenv items k).1.length = items.length ∧
      ∀ r ∈ (insertLoopWithErrors wenv items k).1, ∃ j, r = (writeItemStep wenv j).1 := by
  intro items
  induction items with
  | nil => intro k; exact ⟨rfl, fun r hr => absurd hr (List.not_mem_nil r)⟩
  | cons x rest ih =>
    intro k
    constructor
    · show ((writeItemStep wenv k).1 ::
        (insertLoopWithErrors wenv rest (k + (writeItemStep wenv k).2)).1).length
        = rest.length + 1
      rw [List.length_cons, (ih (k + (writeItemStep wenv k).2)).1]
    · intro r hr
      have hr2 : r ∈ (writeItemStep wenv k).1 ::
          (insertLoopWithErrors wenv rest (k + (writeItemStep wenv k).2)).1 := hr
      rcases List.mem_cons.mp hr2 with h | h
      · exact ⟨k, h⟩
      · exact (ih _).2 r h

/-- C8: in both rate-limited write loops every input item yields exactly one
report (a failing row never aborts the batch), every report is the outcome
of `writeItemStep` at some attempt index, and a single step behaves as
specified: a first failure that is quota-classified backs off 60 seconds
and retries that one write exactly once (two attempts consumed, written iff
the retry succeeds); a non-quota failure is skipped without a retry; a
first-try success writes with no retry and no backoff. -/
theorem write_loops_quota_retry_once (wenv : WriteEnv)
    (to_update : List (Nat × SheetRecord)) (to_insert : List SheetRecord) (k0 k1 : Nat) :
    ((updateLoopWithErrors wenv to_update k0).1.length = to_update.length ∧
     (insertLoopWithErrors wenv to_insert k1).1.length = to_insert.length) ∧
    (∀ r ∈ (updateLoopWithErrors wenv to_update k0).1 ++
           (insertLoopWithErrors wenv to_insert k1).1,
       ∃ j, r = (writeItemStep wenv j).1) ∧
    (∀ j m, wenv.tries j = WriteTry.err m →
      (isQuotaError m = true →
        (writeItemStep wenv j).1.retried = true ∧
        (writeItemStep wenv j).1.backoffSeconds = 60 ∧
        (writeItemStep wenv j).2 = 2 ∧
        ((writeItemStep wenv j).1.written = true ↔ wenv.tries (j + 1) = WriteTry.ok)) ∧
      (isQuotaError m = false →
        (writeItemStep wenv j).1.retried = false ∧
        (writeItemStep wenv j).1.written = false ∧
        (writeItemStep wenv j).2 = 1)) ∧
    (∀ j, wenv.tries j = WriteTry.ok →
      (writeItemStep wenv j).1.written = true ∧
      (writeItemStep wenv j).1.retried = false ∧
      (writeItemStep wenv j).2 = 1) := by
  refine ⟨⟨(updateLoop_reports wenv to_update k0).1,
           (insertLoop_reports wenv to_insert k1).1⟩, ?_, ?_, ?_⟩
  · intro r hr
    rcases List.mem_append.mp hr with h | h
    · exact (updateLoop_reports wenv to_update k0).2 r h
    · exact (insertLoop_reports wenv to_insert k1).2 r h
  · intro j m herr
    constructor
    · intro hq
      simp only [writeItemStep, herr]
      rw [if_pos hq]
      rcases h2 : wenv.tries (j + 1) with _ | m2
      · exact ⟨by trivial, by trivial, by trivial, ⟨fun _ => by trivial, fun _ => by trivial⟩⟩
      · refine ⟨by trivial, by trivial, by trivial, ⟨fun hf => ?_, fun hok => ?_⟩⟩
        · exact absurd hf (by simp)
        · cases hok
    · intro hq
      simp only [writeItemStep, herr]
      rw [if_neg (by rw [hq]; intro h; cases h)]
      exact ⟨by trivial, by trivial, by trivial⟩
  · intro j hok
    simp only [writeItemStep, hok]
    exact ⟨by trivial, by trivial, by trivial⟩

/-- Environment for the C8 witness: the very first attempt fails with a
quota error, every later attempt succeeds. -/
def wenvC8 : WriteEnv :=
  ⟨fun k => if k = 0 then WriteTry.err "Quota exceeded: 429" else WriteTry.ok⟩

/-- A concrete record for the C8 witness batch. -/
def wrecC8 : SheetRecord :=
  ⟨"recA", "https://www.tiktok.com/@user/video/123456", some 10, some 5,
   some "2024-01-15", "crawled"⟩

/-- Witness for C8: on the quota-failing first item the step backs off 60
seconds, retries once, and the two-item batch still yields two reports. -/
theorem write_loops_quota_retry_once_witness :
    (writeItemStep wenvC8 0).1.retried = true ∧
    (writeItemStep wenvC8 0).1.backoffSeconds = 60 ∧
    (writeItemStep wenvC8 0).2 = 2 ∧
    (writeItemStep wenvC8 0).1.written = true ∧
    (updateLoopWithErrors wenvC8 [(2, wrecC8), (5, wrecC8)] 0).1.length = 2 :=
  have h := write_loops_quota_retry_once wenvC8 [(2, wrecC8), (5, wrecC8)] [] 0 0
  have hq := (h.2.2.1 0 "Quota exceeded: 429" rfl).1 (by decide)
  ⟨hq.1, hq.2.1, hq.2.2.1, hq.2.2.2.mpr rfl, h.1.1⟩

end TikTok
